import Mathlib

/-!
# A verification model of the Go package `future`

The package (`future.go`) launches a function in a goroutine (`StartGo`) and hands
the caller a `*Future` whose methods `Cancel`, `IsCancelled`, `IsDone`, `Get` and
`GetWithTimeout` inspect and wait for the outcome.

The program is concurrent: the worker goroutine and the caller share the fields of
the `Future` and three unbuffered channels.  It is embedded as an interleaving
transition system:

* the state holds the five data fields of the `Future`, a program point for the
  worker goroutine, a program point for the (single) caller, the clock read by
  `time.Now()`, and two counters used only in statements (how often the work
  function was invoked, how many values were delivered on `KillChannel`);
* every read or write of a shared field is one step; purely local computation
  (a `return` of a constant, the conversion loop) is folded into the step before it;
* the channels are unbuffered, so they hold no data: a send and the matching
  receive happen in one joint step, enabled when both parties stand at the
  right program points;
* the choice made by a `select` with several ready cases, the firing of the
  timer of `time.After`, and the scheduling of the two goroutines are inputs
  (`Action`), so that every behaviour of the program is a run of the model.

A Go slice is represented by its sequence of elements; the `nil` slice is `[]`.

The runs of the model are the sequentially consistent executions of the program: the
accesses of the two goroutines to the fields are interleaved in some order.  A goroutine
that can take no step is blocked; the model lets the rest of the program go on (the Go
runtime would abort a program all of whose goroutines are blocked).  An unrecovered
panic ends the process: no step is enabled after it.

A call is observed through the `Event` it produces when it returns; a run yields the
final state and the calls that returned, in order.  Statements about a call that is not
interrupted use a schedule made of the caller's steps only; statements about arbitrary
interleavings quantify over all schedules.
-/

namespace future

/-! ## Data model -/

/-- An `interface{}` value as returned by the work function. -/
inductive Value where
  | str (s : String)
  | int (n : Int)
  deriving DecidableEq, Repr

/-- The `error` values of the package: `*CancellationError`, `*TimeoutError`
(message and time stamp), and any other error. -/
inductive GoError where
  | CancellationError (Message : String) (ErrorTime : Nat)
  | TimeoutError (Message : String) (ErrorTime : Nat)
  | other (Message : String)
  deriving DecidableEq, Repr

/-- The data fields of `type Future struct`.  The three channel fields are
unbuffered channels and carry no state of their own. -/
structure Future where
  Start : Bool
  Success : Bool
  Cancelled : Bool
  Err : Option GoError
  Result : List Value
  deriving DecidableEq, Repr

/-- The expression `f.Cancelled || f.Success || f.Err != nil` returned by `IsDone`
(and tested first by `Cancel`), evaluated on a snapshot of the fields. -/
def Future.IsDone (f : Future) : Bool :=
  f.Cancelled || f.Success || f.Err.isSome

/-- The expression `f.Cancelled` returned by `IsCancelled`. -/
def Future.IsCancelled (f : Future) : Bool :=
  f.Cancelled

/-- What `function.Call(arguments)` does: return a sequence of values, panic,
or never return. -/
inductive Work where
  | returns (vs : List Value)
  | panics (x : String)
  | hangs
  deriving DecidableEq, Repr

/-- The loop `for i := 0; i < len(res); i++ { convertTOInterface = append(convertTOInterface, res[i].Interface()) }`
starting from the `nil` slice. -/
def convertTOInterface (res : List Value) : List Value :=
  res.foldl (fun acc v => acc ++ [v]) []

/-- Program points of the goroutine started by `StartGo` (lines 195-214). -/
inductive WorkerPC where
  /-- Line 197: `select` with `case <-quit` and `default`. -/
  | select
  /-- Line 199, after receiving from `quit`: evaluate `time.Now()` for the error. -/
  | quit
  /-- Line 199: blocked in `errorChannel <- e`. -/
  | sendErr (e : GoError)
  /-- Line 202: `future.Start = true`. -/
  | setStart
  /-- Line 203: about to invoke `function.Call(arguments)`. -/
  | call
  /-- Line 203: the work function is executing. -/
  | inCall
  /-- Line 207: `future.Result = convertTOInterface`. -/
  | setResult (conv : List Value)
  /-- Line 208: `future.Success = true`. -/
  | setSuccess (conv : List Value)
  /-- Line 209: `fmt.Println(convertTOInterface)`. -/
  | print (conv : List Value)
  /-- Line 210: blocked in `resultChannel <- convertTOInterface`. -/
  | sendRes (conv : List Value)
  /-- Lines 200, 211: the goroutine has returned. -/
  | done
  /-- The work function panicked; nothing recovers, the process is terminated. -/
  | panicked (x : String)
  deriving DecidableEq, Repr

/-- The methods of `*Future` a caller can invoke. -/
inductive Op where
  | Cancel (mayInterruptIfRunning : Bool)
  | IsCancelled
  | IsDone
  | Get
  | GetWithTimeout (timeout : Int)
  deriving DecidableEq, Repr

/-- Return values: a `bool`, or the pair `([]interface{}, error)`. -/
inductive Ret where
  | bool (b : Bool)
  | pair (res : List Value) (err : Option GoError)
  deriving DecidableEq, Repr

/-- A completed call: the method and what it returned. -/
structure Event where
  op : Op
  ret : Ret
  deriving DecidableEq, Repr

/-- The method a retrieval is part of: `Get` (no timeout) or `GetWithTimeout d`.
`Get` and `GetWithTimeout` consist of the same statements up to the `select`;
their program points are shared and indexed by the timeout. -/
def getOp : Option Int → Op
  | none => Op.Get
  | some d => Op.GetWithTimeout d

/-- Program points of the caller. -/
inductive CallerPC where
  /-- Between two calls. -/
  | idle
  /-- Line 67: reading `f.Cancelled`. -/
  | cancelCancelled (m : Bool)
  /-- Line 67: reading `f.Success`. -/
  | cancelSuccess (m : Bool)
  /-- Line 67: reading `f.Err`. -/
  | cancelErr (m : Bool)
  /-- Line 69: reading `f.Start` (then testing `mayInterruptIfRunning`). -/
  | cancelStart (m : Bool)
  /-- Lines 71, 78: blocked in `f.KillChannel <- true`. -/
  | cancelSend (m : Bool)
  /-- Lines 72-73, 79-80: `f.Cancelled = true; return true`. -/
  | cancelSet (m : Bool)
  /-- Line 89: `return f.Cancelled`. -/
  | isCancelled
  /-- Line 96: reading `f.Cancelled`. -/
  | isDoneCancelled
  /-- Line 96: reading `f.Success`. -/
  | isDoneSuccess
  /-- Line 96: reading `f.Err`. -/
  | isDoneErr
  /-- Lines 104, 136: reading `f.Success`. -/
  | getSuccess (t : Option Int)
  /-- Lines 104, 136: reading `f.Cancelled` (second operand of `&&`). -/
  | getNotCancelled (t : Option Int)
  /-- Lines 105, 137: `return f.Result, nil`. -/
  | getResult (t : Option Int)
  /-- Lines 108, 140: reading `f.Cancelled`. -/
  | getCancelled (t : Option Int)
  /-- Lines 109-112, 141-144: return a new `CancellationError` stamped `time.Now()`. -/
  | getNow (t : Option Int)
  /-- Lines 114, 146: reading `f.Err`. -/
  | getErr (t : Option Int)
  /-- Lines 115, 147: `return nil, f.Err`. -/
  | getRetErr (t : Option Int)
  /-- Line 150: `timeoutChannel := time.After(timeout)`. -/
  | getAfter (d : Int)
  /-- Lines 118, 151: blocked in the `select`; `deadline` is when the timer fires. -/
  | getSelect (t : Option Int) (deadline : Option Int)
  /-- Lines 120, 153: `f.Result = res`. -/
  | setResult (t : Option Int) (res : List Value)
  /-- Lines 121, 154: `f.Success = true`. -/
  | setSuccess (t : Option Int)
  /-- Lines 122, 155: `return f.Result, nil`. -/
  | retResult (t : Option Int)
  /-- Lines 123, 156: the assignment `f.Err = e` of the received error. -/
  | setErr (t : Option Int) (e : GoError)
  /-- Lines 124, 157: `f.Result = nil`. -/
  | clrResult (t : Option Int)
  /-- Lines 125, 158: `f.Success = false`. -/
  | clrSuccess (t : Option Int)
  /-- Lines 126, 159: `return nil, f.Err`. -/
  | retErrField (t : Option Int)
  /-- Line 161: `f.Result = nil`. -/
  | tmoResult (d : Int)
  /-- Line 162: `f.Success = false`. -/
  | tmoSuccess (d : Int)
  /-- Lines 163-166: return a new `TimeoutError` stamped `time.Now()`. -/
  | tmoRet (d : Int)
  deriving DecidableEq, Repr

/-- The case a `select` of `Get` / `GetWithTimeout` commits to. -/
inductive Pick where
  | result
  | error
  | timeout
  deriving DecidableEq, Repr

/-- The state of the program after `StartGo`. -/
structure State where
  /-- The fields of the `Future`. -/
  future : Future
  /-- Where the worker goroutine stands. -/
  worker : WorkerPC
  /-- Where the caller stands. -/
  caller : CallerPC
  /-- The clock read by `time.Now()`. -/
  now : Nat
  /-- How many times the work function has been invoked. -/
  calls : Nat
  /-- How many values have been delivered on `KillChannel`. -/
  kills : Nat
  deriving DecidableEq, Repr

/-- One scheduling decision. -/
inductive Action where
  /-- The idle caller invokes a method. -/
  | invoke (op : Op)
  /-- The caller executes its next step; `pick` is the case chosen if that step is a `select`. -/
  | caller (pick : Pick)
  /-- The worker goroutine executes its next step. -/
  | worker
  /-- Time passes. -/
  | tick
  deriving DecidableEq, Repr

/-! ## Operations -/

/-- The message of every `CancellationError` the package creates. -/
def cancelMsg : String := "task is cancelled by user"

/-- The message of every `TimeoutError` the package creates. -/
def timeoutMsg : String := "Time Out, result not found"

/-- The function `StartGo` (lines 175-216): the future is created with all flags false, `Err` and
`Result` nil, the goroutine is started (it stands before its `select`) and the
future is returned to the caller.  `now` is the clock at that moment.  The function
and its arguments are the `Work` parameter of the worker's steps. -/
def StartGo (now : Nat) : State :=
  { future := { Start := false, Success := false, Cancelled := false, Err := none, Result := [] }
    worker := WorkerPC.select
    caller := CallerPC.idle
    now := now
    calls := 0
    kills := 0 }

/-- One step of the worker goroutine (lines 195-214).  `none`: the goroutine is
blocked or has ended. -/
def workerStep (work : Work) (s : State) : Option State :=
  match s.worker with
  | .select =>
    match s.caller with
    | .cancelSend m =>
      -- `case <-quit`: a sender is waiting, the communication proceeds
      some { s with worker := .quit, caller := .cancelSet m, kills := s.kills + 1 }
    | _ =>
      -- `default`
      some { s with worker := .setStart }
  | .quit => some { s with worker := .sendErr (GoError.CancellationError cancelMsg s.now) }
  | .sendErr _ => none
  | .setStart => some { s with future := { s.future with Start := true }, worker := .call }
  | .call => some { s with worker := .inCall, calls := s.calls + 1 }
  | .inCall =>
    match work with
    | .returns vs => some { s with worker := .setResult (convertTOInterface vs) }
    | .panics x => some { s with worker := .panicked x }
    | .hangs => none
  | .setResult conv =>
    some { s with future := { s.future with Result := conv }, worker := .setSuccess conv }
  | .setSuccess conv =>
    some { s with future := { s.future with Success := true }, worker := .print conv }
  | .print conv => some { s with worker := .sendRes conv }
  | .sendRes _ => none
  | .done => none
  | .panicked _ => none

/-- The caller moves to program point `pc`. -/
def goto (s : State) (pc : CallerPC) : Option (State × List Event) :=
  some ({ s with caller := pc }, [])

/-- The call of `op` returns `r`. -/
def ret (s : State) (op : Op) (r : Ret) : Option (State × List Event) :=
  some ({ s with caller := .idle }, [⟨op, r⟩])

/-- The idle caller invokes a method: it moves to the method's first statement. -/
def invokeStep (op : Op) (s : State) : Option (State × List Event) :=
  match s.caller with
  | .idle =>
    match op with
    | .Cancel m => goto s (.cancelCancelled m)
    | .IsCancelled => goto s .isCancelled
    | .IsDone => goto s .isDoneCancelled
    | .Get => goto s (.getSuccess none)
    | .GetWithTimeout d => goto s (.getSuccess (some d))
  | _ => none

/-- One step of the caller inside `Cancel` (lines 66-83), `IsCancelled` (88-90),
`IsDone` (95-97), `Get` (102-129) or `GetWithTimeout` (134-169).  `none`: the
caller is blocked (or idle). -/
def callerStep (pick : Pick) (s : State) : Option (State × List Event) :=
  let f := s.future
  match s.caller with
  | .idle => none
  -- Cancel
  | .cancelCancelled m =>
    if f.Cancelled then ret s (.Cancel m) (.bool false) else goto s (.cancelSuccess m)
  | .cancelSuccess m =>
    if f.Success then ret s (.Cancel m) (.bool false) else goto s (.cancelErr m)
  | .cancelErr m =>
    if f.Err.isSome then ret s (.Cancel m) (.bool false) else goto s (.cancelStart m)
  | .cancelStart m =>
    if f.Start then
      if m then goto s (.cancelSend m) else ret s (.Cancel m) (.bool false)
    else goto s (.cancelSend m)
  | .cancelSend _ => none
  | .cancelSet m =>
    ret { s with future := { f with Cancelled := true } } (.Cancel m) (.bool true)
  -- IsCancelled
  | .isCancelled => ret s .IsCancelled (.bool f.Cancelled)
  -- IsDone
  | .isDoneCancelled =>
    if f.Cancelled then ret s .IsDone (.bool true) else goto s .isDoneSuccess
  | .isDoneSuccess =>
    if f.Success then ret s .IsDone (.bool true) else goto s .isDoneErr
  | .isDoneErr => ret s .IsDone (.bool f.Err.isSome)
  -- Get / GetWithTimeout
  | .getSuccess t =>
    if f.Success then goto s (.getNotCancelled t) else goto s (.getCancelled t)
  | .getNotCancelled t =>
    if f.Cancelled == false then goto s (.getResult t) else goto s (.getCancelled t)
  | .getResult t => ret s (getOp t) (.pair f.Result none)
  | .getCancelled t =>
    if f.Cancelled then goto s (.getNow t) else goto s (.getErr t)
  | .getNow t =>
    ret s (getOp t) (.pair [] (some (GoError.CancellationError cancelMsg s.now)))
  | .getErr t =>
    if f.Err.isSome then goto s (.getRetErr t)
    else
      match t with
      | none => goto s (.getSelect none none)
      | some d => goto s (.getAfter d)
  | .getRetErr t => ret s (getOp t) (.pair [] f.Err)
  | .getAfter d => goto s (.getSelect (some d) (some ((s.now : Int) + d)))
  | .getSelect t deadline =>
    match pick with
    | .result =>
      match s.worker with
      | .sendRes conv => some ({ s with worker := .done, caller := .setResult t conv }, [])
      | _ => none
    | .error =>
      match s.worker with
      | .sendErr e => some ({ s with worker := .done, caller := .setErr t e }, [])
      | _ => none
    | .timeout =>
      match t, deadline with
      | some d, some dl => if dl ≤ (s.now : Int) then goto s (.tmoResult d) else none
      | _, _ => none
  | .setResult t res =>
    goto { s with future := { f with Result := res } } (.setSuccess t)
  | .setSuccess t =>
    goto { s with future := { f with Success := true } } (.retResult t)
  | .retResult t => ret s (getOp t) (.pair f.Result none)
  | .setErr t e =>
    goto { s with future := { f with Err := some e } } (.clrResult t)
  | .clrResult t =>
    goto { s with future := { f with Result := [] } } (.clrSuccess t)
  | .clrSuccess t =>
    goto { s with future := { f with Success := false } } (.retErrField t)
  | .retErrField t => ret s (getOp t) (.pair [] f.Err)
  | .tmoResult d =>
    goto { s with future := { f with Result := [] } } (.tmoSuccess d)
  | .tmoSuccess d =>
    goto { s with future := { f with Success := false } } (.tmoRet d)
  | .tmoRet d =>
    ret s (.GetWithTimeout d) (.pair [] (some (GoError.TimeoutError timeoutMsg s.now)))

/-- The process has been terminated by an unrecovered panic. -/
def State.crashed (s : State) : Bool :=
  match s.worker with
  | .panicked _ => true
  | _ => false

/-- One step of the program.  After an unrecovered panic nothing runs any more. -/
def step (work : Work) (a : Action) (s : State) : Option (State × List Event) :=
  if s.crashed then none
  else
    match a with
    | .invoke op => invokeStep op s
    | .caller pick => callerStep pick s
    | .worker => (workerStep work s).map (fun s' => (s', []))
    | .tick => some ({ s with now := s.now + 1 }, [])

/-- Run a schedule; the result is the final state and the calls that returned, in
order.  `none`: some action of the schedule was not enabled. -/
def run (work : Work) : List Action → State → Option (State × List Event)
  | [], s => some (s, [])
  | a :: as, s =>
    match step work a s with
    | none => none
    | some (s1, e1) =>
      match run work as s1 with
      | none => none
      | some (s2, e2) => some (s2, e1 ++ e2)

/-- The states reachable from `StartGo`, with the calls completed so far. -/
inductive Reach (work : Work) : State → List Event → Prop where
  | start (now : Nat) : Reach work (StartGo now) []
  | next {s s1 : State} {evs e : List Event} (a : Action) :
      Reach work s evs → step work a s = some (s1, e) → Reach work s1 (evs ++ e)

/-! ## Program-point classes used in the statements and invariants -/

/-- The worker has executed `future.Start = true`. -/
def WorkerPC.started : WorkerPC → Bool
  | .select | .quit | .sendErr _ | .setStart => false
  | _ => true

/-- The worker has invoked the work function. -/
def WorkerPC.invoked : WorkerPC → Bool
  | .select | .quit | .sendErr _ | .setStart | .call => false
  | _ => true

/-- The worker has received from `quit`. -/
def WorkerPC.tookQuit : WorkerPC → Bool
  | .quit | .sendErr _ => true
  | _ => false

/-- The work function has returned normally. -/
def WorkerPC.returned : WorkerPC → Bool
  | .setResult _ | .setSuccess _ | .print _ | .sendRes _ | .done => true
  | _ => false

/-- The worker has executed `future.Result = convertTOInterface`. -/
def WorkerPC.wroteResult : WorkerPC → Bool
  | .setSuccess _ | .print _ | .sendRes _ | .done => true
  | _ => false

/-- The worker has executed `future.Success = true`. -/
def WorkerPC.wroteSuccess : WorkerPC → Bool
  | .print _ | .sendRes _ | .done => true
  | _ => false

/-- The slice the worker holds in `convertTOInterface`, if it has one. -/
def WorkerPC.conv : WorkerPC → Option (List Value)
  | .setResult c | .setSuccess c | .print c | .sendRes c => some c
  | _ => none

/-- The worker has not taken the `default` branch of its `select`. -/
def WorkerPC.beforeDefault : WorkerPC → Bool
  | .select | .quit | .sendErr _ => true
  | _ => false

/-- The worker stands at its `select`. -/
def WorkerPC.isSelect : WorkerPC → Bool
  | .select => true
  | _ => false

/-- The values the worker delivers: the converted result of a work function that returns. -/
def Work.conv : Work → List Value
  | .returns vs => convertTOInterface vs
  | _ => []

/-- The work function returns normally. -/
def Work.isReturns : Work → Bool
  | .returns _ => true
  | _ => false

/-- The caller is about to execute `f.Cancelled = true`. -/
def CallerPC.isCancelSet : CallerPC → Bool
  | .cancelSet _ => true
  | _ => false

/-- The caller is inside a call that has read `f.Cancelled` as false. -/
def CallerPC.sawNotCancelled : CallerPC → Bool
  | .cancelSuccess _ | .cancelErr _ | .cancelStart _ | .cancelSend _ => true
  | .isDoneSuccess | .isDoneErr => true
  | .getResult _ | .getErr _ | .getRetErr _ | .getAfter _ | .getSelect _ _ => true
  | .setResult _ _ | .setSuccess _ | .retResult _ => true
  | .setErr _ _ | .clrResult _ | .clrSuccess _ | .retErrField _ => true
  | .tmoResult _ | .tmoSuccess _ | .tmoRet _ => true
  | _ => false

/-- The caller is on a path that handles a non-nil `f.Err` or an error received
from `ErrorChannel`. -/
def CallerPC.onErrPath : CallerPC → Bool
  | .getRetErr _ | .setErr _ _ | .clrResult _ | .clrSuccess _ | .retErrField _ => true
  | _ => false

/-- The caller has received from `ResultChannel` in the current call. -/
def CallerPC.received : CallerPC → Bool
  | .setResult _ _ | .setSuccess _ | .retResult _ => true
  | _ => false

/-- The slice the caller received from `ResultChannel` and has not stored yet. -/
def CallerPC.res : CallerPC → Option (List Value)
  | .setResult _ r => some r
  | _ => none

/-- The caller is inside a retrieval that has read `f.Success` as true. -/
def CallerPC.sawSuccess : CallerPC → Bool
  | .getNotCancelled _ | .getResult _ => true
  | _ => false

/-- The program points of the caller that such an execution can visit: not inside
`Cancel`, not on the cancellation return of a retrieval, not on the timeout path. -/
def CallerPC.plain : CallerPC → Bool
  | .cancelCancelled _ | .cancelSuccess _ | .cancelErr _ | .cancelStart _ | .cancelSend _
  | .cancelSet _ => false
  | .getNow _ => false
  | .tmoResult _ | .tmoSuccess _ | .tmoRet _ => false
  | _ => true

/-- The caller has read `f.Success` as true or has just written it. -/
def CallerPC.knowsSuccess : CallerPC → Bool
  | .getNotCancelled _ | .getResult _ | .retResult _ => true
  | _ => false

/-- The action is the invocation of a method. -/
def Action.isInvoke : Action → Bool
  | .invoke _ => true
  | _ => false

/-- An action of an execution in which `Cancel` is not called and no `select` commits to
the timer. -/
def Action.plain : Action → Bool
  | .invoke (.Cancel _) => false
  | .caller .timeout => false
  | _ => true

/-- The event of a `Cancel` call that returned true. -/
def Event.isCancelTrue (e : Event) : Bool :=
  match e.op, e.ret with
  | .Cancel _, .bool true => true
  | _, _ => false

/-- What a completed call may have returned: a result pair is `nil` or the
converted result of a work function that returns; an error is a `CancellationError`
or a `TimeoutError` with the package's message. -/
def Event.ok (work : Work) (e : Event) : Prop :=
  match e.ret with
  | .bool _ => True
  | .pair r none => work.isReturns = true ∧ (r = [] ∨ r = work.conv)
  | .pair r (some err) =>
    r = [] ∧ ∃ t, err = GoError.CancellationError cancelMsg t ∨ err = GoError.TimeoutError timeoutMsg t

/-- Some retrieval (`Get` or `GetWithTimeout`) has returned. -/
def Returned (evs : List Event) : Prop :=
  ∃ e ∈ evs, ∃ r err, e.ret = .pair r err

/-! ## The invariants of the program -/

/-- The part of the invariant that relates the worker's program point to the
fields it writes and to the counters. -/
structure InvW (work : Work) (st su : Bool) (er : Option GoError) (re : List Value)
    (w : WorkerPC) (n k : Nat) : Prop where
  err : er = none
  start : st = w.started
  calls : n = if w.invoked then 1 else 0
  kills : k = if w.tookQuit then 1 else 0
  success : su = true → w.wroteSuccess = true
  returned : w.returned = true → work.isReturns = true
  wconv : ∀ c, w.conv = some c → c = work.conv
  result : re = [] ∨ re = work.conv
  resultNil : w.wroteResult = false → re = []
  panicked : ∀ x, w = .panicked x → work = .panics x

/-- The part of the invariant that relates the caller's program point to
`f.Cancelled`, to the worker and to the calls that have returned. -/
structure InvC (work : Work) (ca : Bool) (w : WorkerPC) (c : CallerPC)
    (evs : List Event) : Prop where
  cancelled : (ca || c.isCancelSet) = w.tookQuit
  saw : c.sawNotCancelled = true → ca = false
  noErrPath : c.onErrPath = false
  received : c.received = true → w = .done
  cres : ∀ r, c.res = some r → r = work.conv
  sawSuccess : c.sawSuccess = true → w.wroteSuccess = true
  cancelTrue : ∀ e ∈ evs, e.isCancelTrue = true → ca = true
  evsOk : ∀ e ∈ evs, e.ok work

/-- The invariant of the program. -/
structure Inv (work : Work) (s : State) (evs : List Event) : Prop where
  w : InvW work s.future.Start s.future.Success s.future.Err s.future.Result s.worker s.calls s.kills
  c : InvC work s.future.Cancelled s.worker s.caller evs

/-- The invariant of executions without `Cancel` and without timeout: what the worker
stored in `f.Result` is still there, and what retrievals returned is the work's result. -/
structure InvT (work : Work) (su : Bool) (re : List Value) (ca : Bool) (w : WorkerPC)
    (c : CallerPC) (evs : List Event) : Prop where
  res : w.wroteResult = true → re = work.conv
  notCancelled : ca = false
  plainPc : c.plain = true
  knows : c.knowsSuccess = true → su = true
  evsOk : ∀ e ∈ evs, ∀ r err, e.ret = .pair r err → r = work.conv ∧ err = none
  got : Returned evs → su = true ∧ re = work.conv

/-! ## Calls run without interruption -/

/-- The caller takes `n` steps in a row (none of them a `select` with a ready timer). -/
def callerSteps (n : Nat) : List Action :=
  List.replicate n (.caller .result)

/-- Time passes for `k` ticks of the clock. -/
def ticks (k : Nat) : List Action :=
  List.replicate k .tick

/-- How many steps `Cancel` takes on a terminal future: line 67 reads `f.Cancelled`,
then `f.Success`, then `f.Err`, and stops at the first that holds. -/
def cancelReads (f : Future) : Nat :=
  if f.Cancelled then 1 else if f.Success then 2 else 3

/-- A whole call of `Cancel(m)` on a terminal future, run without interruption. -/
def cancelCall (f : Future) (m : Bool) : List Action :=
  .invoke (.Cancel m) :: callerSteps (cancelReads f)

/-- A whole retrieval (`Get` for `t = none`, `GetWithTimeout d` for `t = some d`) that
takes `n` steps, run without interruption. -/
def retrievalCall (t : Option Int) (n : Nat) : List Action :=
  .invoke (getOp t) :: callerSteps n

/-- How many steps a retrieval takes on a cancelled future: line 104 reads `f.Success`
(and, if it is true, `f.Cancelled`), line 108 reads `f.Cancelled`, lines 109-112 return. -/
def cancelledReads (f : Future) : Nat :=
  if f.Success then 4 else 3

/-- The timeout path of `GetWithTimeout` (lines 160-166), run without interruption: the
`select` commits to the timer, then `f.Result = nil`, `f.Success = false`, `return`. -/
def timeoutPath : List Action :=
  .caller .timeout :: callerSteps 3

/-! ## Where a call of `Cancel` can stand -/

/-- Where a `Cancel(m)` called on a terminal future with fields `f0` can stand, with the
calls `e` that have returned since it was invoked: it has returned false, or it is still
reading the fields of line 67. -/
def CancelTerminal (m : Bool) (f0 : Future) (c : CallerPC) (e : List Event) : Prop :=
  (c = .idle ∧ e = [⟨.Cancel m, .bool false⟩]) ∨
    (e = [] ∧ (c = .cancelCancelled m ∨ (c = .cancelSuccess m ∧ f0.Cancelled = false) ∨
      (c = .cancelErr m ∧ f0.Cancelled = false ∧ f0.Success = false)))

/-- Where a `Cancel(false)` called on a Running future can stand, with the calls `e` that
have returned since it was invoked: it has returned false, or it is still reading the
fields of lines 67 and 69. -/
def CancelRunning (c : CallerPC) (e : List Event) : Prop :=
  (c = .idle ∧ e = [⟨.Cancel false, .bool false⟩]) ∨
    (e = [] ∧ (c = .cancelCancelled false ∨ c = .cancelSuccess false ∨ c = .cancelErr false ∨
      c = .cancelStart false))

/-! ## Example executions -/

/-- The work function of the tests: returns `("gouri", 100)`. -/
def function : Work := .returns [.str "gouri", .int 100]

/-- A schedule: `Cancel(true)` is called right after `StartGo` and reaches its send before the
worker runs its `select`; the worker receives from `quit`; `Cancel` sets
`f.Cancelled` and returns true. -/
def cancelFirst : List Action :=
  [.invoke (.Cancel true), .caller .result, .caller .result, .caller .result, .caller .result,
   .worker, .caller .result]

/-- The state after `cancelFirst`. -/
def cancelFirstState : State :=
  { future := { Start := false, Success := false, Cancelled := true, Err := none, Result := [] }
    worker := .quit
    caller := .idle
    now := 0
    calls := 0
    kills := 1 }

/-- The state after `cancelFirst`, a step of the blocked worker and a tick of the clock. -/
def cancelFirstLater : State :=
  { cancelFirstState with worker := .sendErr (.CancellationError cancelMsg 0), now := 1 }

/-- After `StartGo`, the worker has taken the `default` branch of its `select` but has not
yet executed `future.Start = true`, and the caller has reached the send of `Cancel`. -/
def pendingBlocked (now : Nat) (m : Bool) : State :=
  { StartGo now with worker := .setStart, caller := .cancelSend m }

/-- The state `pendingBlocked 0 true` after the worker has set `Start`, the clock has
ticked and the worker has invoked the work function: the caller is still blocked. -/
def pendingBlockedLater : State :=
  { pendingBlocked 0 true with
      future := { (StartGo 0).future with Start := true }, worker := .inCall, now := 1, calls := 1 }

/-- After `StartGo`, the worker has executed `future.Start = true` and stands before
`function.Call`. -/
def runningState : State :=
  { StartGo 0 with future := { (StartGo 0).future with Start := true }, worker := .call }

/-- The state after `StartGo` once a work function that panics with `"boom"` has been
invoked: the panic has left the goroutine. -/
def panickedState : State :=
  { StartGo 0 with
      future := { (StartGo 0).future with Start := true }, worker := .panicked "boom", calls := 1 }

/-- The test's scenario around `Cancel(false)`: the worker starts the work; `Cancel(false)`
is called and returns; `Get` is called and blocks in its `select`; the work returns and
the worker writes `Result` and `Success` and sends the result; `Get` receives it, stores
it and returns. -/
def cancelFalseThenGet : List Action :=
  [.worker, .worker, .invoke (.Cancel false)] ++ callerSteps 4 ++
    [.invoke .Get] ++ callerSteps 3 ++ [.worker, .worker, .worker, .worker, .worker] ++
    callerSteps 4

/-- A schedule: `Cancel(true)` succeeds right after `StartGo`; `Get()` is called; the clock ticks;
`Get()` is called again. -/
def cancelThenGetTwice : List Action :=
  cancelFirst ++ retrievalCall none 3 ++ ticks 1 ++ retrievalCall none 3

/-- A schedule: `GetWithTimeout(0)` is called right after `StartGo` and waits in its `select`; the
worker runs the work, writes `Result` and `Success` and stands before `fmt.Println`. -/
def waitingThenWritten : List Action :=
  .invoke (.GetWithTimeout 0) :: callerSteps 4 ++
    [.worker, .worker, .worker, .worker, .worker, .worker]

/-- The state after `waitingThenWritten`: the worker has written the result and
`Success`, the caller waits in the `select` with its timer expired. -/
def writtenState : State :=
  { future := { Start := true, Success := true, Cancelled := false, Err := none,
                Result := [.str "gouri", .int 100] }
    worker := .print [.str "gouri", .int 100]
    caller := .getSelect (some 0) (some 0)
    now := 0
    calls := 1
    kills := 0 }

/-- A schedule in which `Cancel` is never called.  The worker runs the work and executes
`future.Result = convertTOInterface` (line 207); a `GetWithTimeout(0)` started then finds
`Success` still false, reaches its `select` and times out (lines 160-166); the worker
executes `future.Success = true` (line 208); `Get()` is called. -/
def timeoutBetweenWrites : List Action :=
  [.worker, .worker, .worker, .worker, .worker] ++
    (.invoke (.GetWithTimeout 0) :: callerSteps 4) ++ timeoutPath ++ [.worker] ++
    retrievalCall none 3

/-- The state after `timeoutBetweenWrites`. -/
def lostResultState : State :=
  { future := { Start := true, Success := true, Cancelled := false, Err := none, Result := [] }
    worker := .print [.str "gouri", .int 100]
    caller := .idle
    now := 0
    calls := 1
    kills := 0 }

/-- A schedule: the worker runs the work and executes `future.Result = convertTOInterface`
(line 207); a `GetWithTimeout(0)` started then finds `Success` still false, reaches its
`select` and times out (lines 160-166). -/
def timeoutAfterResult : List Action :=
  [.worker, .worker, .worker, .worker, .worker] ++
    (.invoke (.GetWithTimeout 0) :: callerSteps 4) ++ timeoutPath

/-- The state after `timeoutAfterResult`: the future is Running (`Start` true, `Cancelled`
and `Success` false, `Err` nil), `f.Result` has been set to nil by the timeout path, and
the worker stands before `future.Success = true` (line 208). -/
def clearedRunningState : State :=
  { future := { Start := true, Success := false, Cancelled := false, Err := none, Result := [] }
    worker := .setSuccess [.str "gouri", .int 100]
    caller := .idle
    now := 0
    calls := 1
    kills := 0 }

/-- A schedule: `Cancel(false)` is called and returns; the worker executes
`future.Success = true` (line 208); `Get()` is called. -/
def cancelFalseThenLateGet : List Action :=
  (.invoke (.Cancel false) :: callerSteps 4) ++ [.worker] ++ retrievalCall none 3

/-- The state after `cancelFalseThenLateGet` run from `clearedRunningState`. -/
def cancelFalseLostState : State :=
  { clearedRunningState with
      future := { clearedRunningState.future with Success := true }
      worker := .print [.str "gouri", .int 100] }

/-! # Proofs -/

/-! ## The invariant holds in every reachable state -/

theorem WorkerPC.returned_of_wroteSuccess {w : WorkerPC} (h : w.wroteSuccess = true) :
    w.returned = true := by
  cases w <;> first | rfl | cases h

theorem Inv.start_state (work : Work) (now : Nat) : Inv work (StartGo now) [] :=
  ⟨⟨rfl, rfl, rfl, rfl, fun h => (by cases h), fun h => (by cases h), fun c h => (by cases h),
    Or.inl rfl, fun _ => rfl, fun x h => (by cases h)⟩,
   ⟨rfl, fun h => (by cases h), rfl, fun h => (by cases h), fun r h => (by cases h),
    fun h => (by cases h), fun e h => (by cases h), fun e h => (by cases h)⟩⟩

theorem InvW.wstep {work : Work} {st su : Bool} {er : Option GoError} {re : List Value}
    {w w1 : WorkerPC} {n k : Nat}
    (h : InvW work st su er re w n k)
    (h1 : w1.started = w.started) (h2 : w1.invoked = w.invoked) (h3 : w1.tookQuit = w.tookQuit)
    (h4 : w.wroteSuccess = true → w1.wroteSuccess = true)
    (h5 : w1.returned = true → w.returned = true)
    (h6 : ∀ c, w1.conv = some c → w.conv = some c)
    (h7 : w1.wroteResult = false → w.wroteResult = false)
    (h8 : ∀ x, w1 = .panicked x → w = .panicked x) : InvW work st su er re w1 n k :=
  ⟨h.err, h1 ▸ h.start, h2 ▸ h.calls, h3 ▸ h.kills, fun hs => h4 (h.success hs),
    fun hr => h.returned (h5 hr), fun c hc => h.wconv c (h6 c hc), h.result,
    fun hw => h.resultNil (h7 hw), fun x hx => h.panicked x (h8 x hx)⟩

theorem InvC.wmove {work : Work} {ca : Bool} {w w1 : WorkerPC} {c : CallerPC} {evs : List Event}
    (h : InvC work ca w c evs) (h1 : w1.tookQuit = w.tookQuit) (h2 : w = .done → w1 = .done)
    (h3 : w.wroteSuccess = true → w1.wroteSuccess = true) :
    InvC work ca w1 c evs :=
  ⟨h1 ▸ h.cancelled, h.saw, h.noErrPath, fun hr => h2 (h.received hr), h.cres,
    fun hs => h3 (h.sawSuccess hs), h.cancelTrue, h.evsOk⟩

theorem InvC.cmove {work : Work} {ca : Bool} {w : WorkerPC} {c c1 : CallerPC} {evs : List Event}
    (h : InvC work ca w c evs)
    (h1 : c1.isCancelSet = c.isCancelSet)
    (h2 : c1.sawNotCancelled = true → ca = false)
    (h3 : c1.onErrPath = false)
    (h4 : c1.received = true → w = .done)
    (h5 : ∀ r, c1.res = some r → r = work.conv)
    (h6 : c1.sawSuccess = true → w.wroteSuccess = true) :
    InvC work ca w c1 evs :=
  ⟨by rw [h1]; exact h.cancelled, h2, h3, h4, h5, h6, h.cancelTrue, h.evsOk⟩

theorem InvC.cret {work : Work} {ca : Bool} {w : WorkerPC} {c : CallerPC} {evs : List Event}
    {op : Op} {r : Ret}
    (h : InvC work ca w c evs)
    (h1 : c.isCancelSet = false)
    (h2 : (⟨op, r⟩ : Event).isCancelTrue = false)
    (h3 : (⟨op, r⟩ : Event).ok work) :
    InvC work ca w .idle (evs ++ [⟨op, r⟩]) := by
  refine ⟨?_, ?_, rfl, ?_, ?_, ?_, ?_, ?_⟩
  · have := h.cancelled; rw [h1] at this; exact this
  · intro h; cases h
  · intro h; cases h
  · intro r h; cases h
  · intro h; cases h
  · intro e he hc
    rcases List.mem_append.1 he with he | he
    · exact h.cancelTrue e he hc
    · rw [List.mem_singleton.1 he, h2] at hc; cases hc
  · intro e he
    rcases List.mem_append.1 he with he | he
    · exact h.evsOk e he
    · rw [List.mem_singleton.1 he]; exact h3

theorem isCancelTrue_getOp (t : Option Int) (r : Ret) :
    (⟨getOp t, r⟩ : Event).isCancelTrue = false := by
  cases t <;> rfl

theorem Inv.worker_preserved {work : Work} {s s1 : State} {evs : List Event}
    (h : Inv work s evs) (hs : workerStep work s = some s1) : Inv work s1 evs := by
  obtain ⟨hW, hC⟩ := h
  unfold future.workerStep at hs
  split at hs
  all_goals (rename_i hw; rw [hw] at hW hC)
  all_goals (try split at hs)
  all_goals (try (simp only [Option.some.injEq, reduceCtorEq] at hs))
  all_goals (try subst hs)
  all_goals (try (refine ⟨hW.wstep rfl rfl rfl ?_ ?_ ?_ ?_ ?_, hC.wmove rfl ?_ ?_⟩ <;>
                   first | (intro h; exact h) | (intro c h; exact h) | (intro h; cases h; done)
                         | (intro x h; cases h; done)))
  · -- `case <-quit`: the rendezvous with the caller blocked in `Cancel`
    rename_i m hc
    rw [hc] at hC
    have hk : s.kills = 0 := hW.kills
    exact ⟨⟨hW.err, hW.start, hW.calls, (by rw [hk]; rfl), hW.success, hW.returned, hW.wconv,
      hW.result, hW.resultNil, fun x h => (by cases h)⟩,
      ⟨Bool.or_true _, fun h => (by cases h), rfl, fun h => (by cases h), fun r h => (by cases h),
        fun h => (by cases h), hC.cancelTrue, hC.evsOk⟩⟩
  · -- `future.Start = true`
    exact ⟨⟨hW.err, rfl, hW.calls, hW.kills, hW.success, hW.returned, hW.wconv,
      hW.result, hW.resultNil, fun x h => (by cases h)⟩,
      hC.wmove rfl (fun h => (by cases h)) (fun h => (by cases h))⟩
  · -- the work function is invoked
    have hk : s.calls = 0 := hW.calls
    exact ⟨⟨hW.err, hW.start, (by rw [hk]; rfl), hW.kills, hW.success, fun h => (by cases h),
      hW.wconv, hW.result, hW.resultNil, fun x h => (by cases h)⟩,
      hC.wmove rfl (fun h => (by cases h)) (fun h => (by cases h))⟩
  · -- the work function returns
    exact ⟨⟨hW.err, hW.start, hW.calls, hW.kills, hW.success, fun _ => rfl,
      fun c h => (by cases h; rfl), hW.result, hW.resultNil, fun x h => (by cases h)⟩,
      hC.wmove rfl (fun h => (by cases h)) (fun h => (by cases h))⟩
  · -- the work function panics
    exact ⟨⟨hW.err, hW.start, hW.calls, hW.kills, hW.success, fun h => (by cases h),
      fun c h => (by cases h), hW.result, hW.resultNil, fun x h => (by cases h; rfl)⟩,
      hC.wmove rfl (fun h => (by cases h)) (fun h => (by cases h))⟩
  · -- `future.Result = convertTOInterface`
    rename_i conv
    exact ⟨⟨hW.err, hW.start, hW.calls, hW.kills, hW.success, hW.returned, hW.wconv,
      Or.inr (hW.wconv conv rfl), fun h => (by cases h), fun x h => (by cases h)⟩,
      hC.wmove rfl (fun h => (by cases h)) (fun h => (by cases h))⟩
  · -- `future.Success = true`
    exact ⟨⟨hW.err, hW.start, hW.calls, hW.kills, fun _ => rfl, hW.returned, hW.wconv,
      hW.result, fun h => (by cases h), fun x h => (by cases h)⟩,
      hC.wmove rfl (fun h => (by cases h)) (fun h => (by cases h))⟩

theorem Inv.caller_preserved {work : Work} {s s1 : State} {evs e : List Event} {pick : Pick}
    (h : Inv work s evs) (hs : callerStep pick s = some (s1, e)) : Inv work s1 (evs ++ e) := by
  obtain ⟨hW, hC⟩ := h
  unfold future.callerStep at hs
  simp only at hs
  split at hs
  all_goals (rename_i hc; rw [hc] at hC)
  all_goals (try split at hs)
  all_goals (try split at hs)
  all_goals (try split at hs)
  all_goals (try (simp only [goto, ret, Option.some.injEq, Prod.mk.injEq, reduceCtorEq] at hs))
  all_goals (try (obtain ⟨rfl, rfl⟩ := hs))
  all_goals (try simp only [List.append_nil])
  all_goals (try (cases hC.noErrPath; done))
  all_goals (try (refine ⟨hW, ?_⟩
                  first
                  | exact hC.cret rfl rfl trivial
                  | exact hC.cret rfl (isCancelTrue_getOp _ _) ⟨rfl, _, Or.inl rfl⟩
                  | exact hC.cret rfl (isCancelTrue_getOp _ _) ⟨rfl, _, Or.inr rfl⟩
                  | exact hC.cret rfl rfl ⟨rfl, _, Or.inr rfl⟩
                  | exact hC.cret rfl (isCancelTrue_getOp _ _)
                      ⟨hW.returned (WorkerPC.returned_of_wroteSuccess (hC.sawSuccess rfl)), hW.result⟩
                  | exact hC.cret rfl (isCancelTrue_getOp _ _)
                      ⟨hW.returned (hC.received rfl ▸ rfl), hW.result⟩
                  | (refine hC.cmove ?_ ?_ ?_ ?_ ?_ ?_
                     · rfl
                     · first | (intro h; cases h; done) | (intro _; exact hC.saw rfl)
                             | (intro _; exact Bool.eq_false_iff.2 (by assumption))
                             | (intro _; exact eq_of_beq (by assumption))
                     · rfl
                     · intro h; cases h
                     · intro r h; cases h
                     · first | (intro h; cases h; done) | (intro _; exact hC.sawSuccess rfl)
                             | (intro _; exact hW.success (by assumption)) )))
  · -- `f.Cancelled = true; return true`
    exact ⟨hW, ⟨(Bool.or_true _).symm.trans hC.cancelled, fun h => (by cases h), rfl,
      fun h => (by cases h), fun r h => (by cases h), fun h => (by cases h), fun _ _ _ => rfl,
      fun e he => (by
        rcases List.mem_append.1 he with he | he
        · exact hC.evsOk e he
        · rw [List.mem_singleton.1 he]; trivial)⟩⟩
  · -- `f.Err != nil` cannot hold
    rename_i h
    rw [hW.err] at h
    cases h
  · -- receive from `ResultChannel`
    rename_i conv hw
    rw [hw] at hW hC
    exact ⟨hW.wstep rfl rfl rfl (fun _ => rfl) (fun _ => rfl) (fun c h => (by cases h))
        (fun h => (by cases h)) (fun x h => (by cases h)),
      ⟨hC.cancelled, fun _ => hC.saw rfl, rfl, fun _ => rfl,
        fun r h => (by cases h; exact hW.wconv _ rfl), fun h => (by cases h), hC.cancelTrue,
        hC.evsOk⟩⟩
  · -- receive from `ErrorChannel`: impossible, the caller has seen `f.Cancelled` false
    rename_i err hw
    rw [hw] at hC
    have h1 := hC.cancelled
    rw [hC.saw rfl] at h1
    cases h1
  · -- `f.Result = res`
    rename_i t res
    have hd := hC.received rfl
    rw [hd] at hW hC ⊢
    exact ⟨⟨hW.err, hW.start, hW.calls, hW.kills, hW.success, hW.returned, hW.wconv,
      Or.inr (hC.cres res rfl), fun h => (by cases h), hW.panicked⟩,
      ⟨hC.cancelled, fun _ => hC.saw rfl, rfl, fun _ => rfl, fun r h => (by cases h),
        fun h => (by cases h), hC.cancelTrue, hC.evsOk⟩⟩
  · -- `f.Success = true`
    have hd := hC.received rfl
    rw [hd] at hW hC ⊢
    exact ⟨⟨hW.err, hW.start, hW.calls, hW.kills, fun _ => rfl, hW.returned, hW.wconv,
      hW.result, hW.resultNil, hW.panicked⟩,
      ⟨hC.cancelled, fun _ => hC.saw rfl, rfl, fun _ => rfl, fun r h => (by cases h),
        fun h => (by cases h), hC.cancelTrue, hC.evsOk⟩⟩
  · -- timeout: `f.Result = nil`
    exact ⟨⟨hW.err, hW.start, hW.calls, hW.kills, hW.success, hW.returned, hW.wconv,
      Or.inl rfl, fun _ => rfl, hW.panicked⟩,
      ⟨hC.cancelled, fun _ => hC.saw rfl, rfl, fun h => (by cases h), fun r h => (by cases h),
        fun h => (by cases h), hC.cancelTrue, hC.evsOk⟩⟩
  · -- timeout: `f.Success = false`
    exact ⟨⟨hW.err, hW.start, hW.calls, hW.kills, fun h => (by cases h), hW.returned, hW.wconv,
      hW.result, hW.resultNil, hW.panicked⟩,
      ⟨hC.cancelled, fun _ => hC.saw rfl, rfl, fun h => (by cases h), fun r h => (by cases h),
        fun h => (by cases h), hC.cancelTrue, hC.evsOk⟩⟩

theorem Inv.invoke_preserved {work : Work} {s s1 : State} {evs e : List Event} {op : Op}
    (h : Inv work s evs) (hs : invokeStep op s = some (s1, e)) : Inv work s1 (evs ++ e) := by
  obtain ⟨hW, hC⟩ := h
  unfold future.invokeStep at hs
  split at hs
  · rename_i hc
    rw [hc] at hC
    cases op <;> simp only [goto, Option.some.injEq, Prod.mk.injEq] at hs <;>
      (obtain ⟨rfl, rfl⟩ := hs
       simp only [List.append_nil]
       exact ⟨hW, hC.cmove rfl (fun h => (by cases h)) rfl (fun h => (by cases h))
         (fun r h => (by cases h)) (fun h => (by cases h))⟩)
  · cases hs

theorem Inv.step_preserved {work : Work} {s s1 : State} {evs e : List Event} {a : Action}
    (h : Inv work s evs) (hs : step work a s = some (s1, e)) : Inv work s1 (evs ++ e) := by
  unfold future.step at hs
  split at hs
  · cases hs
  · cases a with
    | invoke op => exact h.invoke_preserved hs
    | caller pick => exact h.caller_preserved hs
    | worker =>
      simp only [Option.map_eq_some', Prod.mk.injEq] at hs
      obtain ⟨s2, h2, rfl, rfl⟩ := hs
      simpa using h.worker_preserved h2
    | tick =>
      simp only [Option.some.injEq, Prod.mk.injEq] at hs
      obtain ⟨rfl, rfl⟩ := hs
      simpa using (⟨h.w, h.c⟩ : Inv work { s with now := s.now + 1 } evs)

theorem Reach.inv {work : Work} {s : State} {evs : List Event} (h : Reach work s evs) :
    Inv work s evs := by
  induction h with
  | start now => exact Inv.start_state work now
  | next a _ hs ih => exact ih.step_preserved hs

theorem Reach.after {work : Work} {sched : List Action} {s s1 : State} {evs e : List Event}
    (h : Reach work s evs) (hr : run work sched s = some (s1, e)) : Reach work s1 (evs ++ e) := by
  induction sched generalizing s evs e with
  | nil =>
    simp only [future.run, Option.some.injEq, Prod.mk.injEq] at hr
    obtain ⟨rfl, rfl⟩ := hr
    simpa using h
  | cons a as ih =>
    unfold future.run at hr
    split at hr
    · cases hr
    · rename_i s2 e2 h2
      split at hr
      · cases hr
      · rename_i s3 e3 h3
        simp only [Option.some.injEq, Prod.mk.injEq] at hr
        obtain ⟨rfl, rfl⟩ := hr
        have := ih (Reach.next a h h2) h3
        simpa [List.append_assoc] using this

theorem Reach.of_run {work : Work} {sched : List Action} {now : Nat} {s : State}
    {evs : List Event} (hr : run work sched (StartGo now) = some (s, evs)) : Reach work s evs := by
  simpa using (Reach.start now).after hr

/-! ## Runs -/

theorem run_cons_eq_some {work : Work} {a : Action} {as : List Action} {s s2 : State}
    {e : List Event} (h : run work (a :: as) s = some (s2, e)) :
    ∃ s1 e1 e2, step work a s = some (s1, e1) ∧ run work as s1 = some (s2, e2) ∧ e = e1 ++ e2 := by
  unfold run at h
  split at h
  · cases h
  · rename_i s1 e1 h1
    split at h
    · cases h
    · rename_i s3 e3 h3
      simp only [Option.some.injEq, Prod.mk.injEq] at h
      obtain ⟨rfl, rfl⟩ := h
      exact ⟨s1, e1, e3, h1, h3, rfl⟩

theorem run_nil_eq_some {work : Work} {s s2 : State} {e : List Event}
    (h : run work [] s = some (s2, e)) : s2 = s ∧ e = [] := by
  simp only [run, Option.some.injEq, Prod.mk.injEq] at h
  exact ⟨h.1.symm, h.2.symm⟩

theorem run_append {work : Work} {as bs : List Action} {s s1 s2 : State} {e1 e2 : List Event}
    (h1 : run work as s = some (s1, e1)) (h2 : run work bs s1 = some (s2, e2)) :
    run work (as ++ bs) s = some (s2, e1 ++ e2) := by
  induction as generalizing s e1 with
  | nil =>
    obtain ⟨rfl, rfl⟩ := run_nil_eq_some h1
    simpa using h2
  | cons a as ih =>
    obtain ⟨s3, e3, e4, h3, h4, rfl⟩ := run_cons_eq_some h1
    have h5 := ih h4
    show run work (a :: (as ++ bs)) s = _
    unfold run
    rw [h3]
    simp only [h5, List.append_assoc]

/-- A property of states that every step reflects holds at the start of a run
if it holds at its end. -/
theorem run_reflects {work : Work} {P : State → Prop}
    (hstep : ∀ a s s1 e, step work a s = some (s1, e) → P s1 → P s)
    {sched : List Action} {s s2 : State} {e : List Event}
    (h : run work sched s = some (s2, e)) (h2 : P s2) : P s := by
  induction sched generalizing s e with
  | nil => obtain ⟨rfl, rfl⟩ := run_nil_eq_some h; exact h2
  | cons a as ih =>
    obtain ⟨s1, e1, e3, h1, h3, rfl⟩ := run_cons_eq_some h
    exact hstep a s s1 e1 h1 (ih h3)

/-! ## What a step leaves alone -/

theorem convertTOInterface_eq (res : List Value) : convertTOInterface res = res := by
  have h : ∀ (l acc : List Value), l.foldl (fun acc v => acc ++ [v]) acc = acc ++ l := by
    intro l
    induction l with
    | nil => intro acc; simp
    | cons x xs ih => intro acc; simp [ih]
  simpa [convertTOInterface] using h res []

/-- A step of the caller leaves the clock and the counters alone; it changes the
worker's program point only by completing a rendezvous, after which the worker has returned. -/
theorem callerStep_frame {pick : Pick} {s s1 : State} {e : List Event}
    (hs : callerStep pick s = some (s1, e)) :
    (s1.worker = s.worker ∨ s1.worker = .done) ∧ s1.now = s.now ∧ s1.calls = s.calls ∧
      s1.kills = s.kills := by
  unfold callerStep at hs
  simp only at hs
  split at hs
  all_goals (try split at hs)
  all_goals (try split at hs)
  all_goals (try split at hs)
  all_goals (try (simp only [goto, ret, Option.some.injEq, Prod.mk.injEq, reduceCtorEq] at hs))
  all_goals (try (obtain ⟨rfl, rfl⟩ := hs))
  all_goals (first | exact ⟨Or.inl rfl, rfl, rfl, rfl⟩ | exact ⟨Or.inr rfl, rfl, rfl, rfl⟩)

theorem invokeStep_frame {op : Op} {s s1 : State} {e : List Event}
    (hs : invokeStep op s = some (s1, e)) :
    s1.future = s.future ∧ s1.worker = s.worker ∧ s1.now = s.now ∧ s1.calls = s.calls ∧
      s1.kills = s.kills ∧ e = [] ∧ s.caller = .idle := by
  unfold invokeStep at hs
  split at hs
  · rename_i hc
    cases op <;> simp only [goto, Option.some.injEq, Prod.mk.injEq] at hs <;>
      (obtain ⟨rfl, rfl⟩ := hs; exact ⟨rfl, rfl, rfl, rfl, rfl, rfl, hc⟩)
  · cases hs


theorem workerStep_beforeDefault {work : Work} {s s1 : State}
    (hs : workerStep work s = some s1) (h : s1.worker.beforeDefault = true) :
    s.worker.beforeDefault = true := by
  unfold workerStep at hs
  split at hs
  all_goals (rename_i hw; rw [hw])
  all_goals (try split at hs)
  all_goals (try (simp only [Option.some.injEq, reduceCtorEq] at hs))
  all_goals (try subst hs)
  all_goals (first | rfl | cases h)

theorem step_beforeDefault {work : Work} {a : Action} {s s1 : State} {e : List Event}
    (hs : step work a s = some (s1, e)) (h : s1.worker.beforeDefault = true) :
    s.worker.beforeDefault = true := by
  unfold step at hs
  split at hs
  · cases hs
  · cases a with
    | invoke op => rw [← (invokeStep_frame hs).2.1]; exact h
    | caller pick =>
      rcases (callerStep_frame hs).1 with h1 | h1
      · rw [← h1]; exact h
      · rw [h1] at h; cases h
    | worker =>
      simp only [Option.map_eq_some', Prod.mk.injEq] at hs
      obtain ⟨s2, h2, rfl, rfl⟩ := hs
      exact workerStep_beforeDefault h2 h
    | tick =>
      simp only [Option.some.injEq, Prod.mk.injEq] at hs
      obtain ⟨rfl, rfl⟩ := hs
      exact h

theorem WorkerPC.beforeDefault_of_tookQuit {w : WorkerPC} (h : w.tookQuit = true) :
    w.beforeDefault = true := by
  cases w <;> first | rfl | cases h

theorem WorkerPC.not_wroteSuccess_of_tookQuit {w : WorkerPC} (h : w.tookQuit = true) :
    w.wroteSuccess = false := by
  cases w <;> first | rfl | cases h

/-- While the worker has not taken the `default` branch, the work function has not
been invoked and the worker has written nothing. -/
theorem Inv.nothing_before_default {work : Work} {s : State} {evs : List Event} (h : Inv work s evs)
    (hw : s.worker.beforeDefault = true) :
    s.calls = 0 ∧ s.future.Start = false ∧ s.future.Success = false ∧ s.future.Result = [] := by
  obtain ⟨hW, -⟩ := h
  generalize s.worker = w at hW hw
  have hsu : s.future.Success = true → w.wroteSuccess = true := hW.success
  have hsf : w.wroteSuccess = false → s.future.Success = false := by
    intro hf
    cases hS : s.future.Success
    · rfl
    · rw [hsu hS] at hf; cases hf
  cases w <;> first
    | exact ⟨hW.calls, hW.start, hsf rfl, hW.resultNil rfl⟩
    | cases hw

/-- Once `Cancel` has returned true, `f.Cancelled` is set and the worker has
received from `quit`. -/
theorem Inv.tookQuit_of_cancelTrue {work : Work} {s : State} {evs : List Event}
    (h : Inv work s evs) {e : Event} (he : e ∈ evs) (hc : e.isCancelTrue = true) :
    s.future.Cancelled = true ∧ s.worker.tookQuit = true := by
  have h1 := h.c.cancelTrue e he hc
  refine ⟨h1, ?_⟩
  have h2 := h.c.cancelled
  rw [h1] at h2
  exact h2.symm

/-! ## C9 and C10: cancellation and success exclude each other, the work runs at most once -/

/-- Claim C9. In every state reachable from `StartGo` by interleaving steps of the worker
goroutine with steps of calls of `Cancel`, `Get`, `GetWithTimeout`, `IsDone` and
`IsCancelled` made by a single caller, `f.Cancelled` and `f.Success` are never both true. -/
theorem cancelled_and_success_never_both (work : Work) (now : Nat) (sched : List Action)
    (s : State) (evs : List Event) (h : run work sched (StartGo now) = some (s, evs)) :
    ¬ (s.future.Cancelled = true ∧ s.future.Success = true) := by
  have hI := (Reach.of_run h).inv
  rintro ⟨hc, hs⟩
  have h1 := hI.c.cancelled
  rw [hc] at h1
  have h2 := WorkerPC.not_wroteSuccess_of_tookQuit h1.symm
  rw [hI.w.success hs] at h2
  cases h2

theorem cancelled_and_success_never_both_witness :
    run function cancelFirst (StartGo 0)
        = some (cancelFirstState, [⟨.Cancel true, .bool true⟩]) ∧
      ¬ (cancelFirstState.future.Cancelled = true ∧ cancelFirstState.future.Success = true) :=
  ⟨by decide, cancelled_and_success_never_both function 0 cancelFirst cancelFirstState
    [⟨.Cancel true, .bool true⟩] (by decide)⟩

/-- Claim C10. Take any execution from `StartGo`, split at any point into a first part
(ending in state `s1`) and a rest (ending in state `s2`).  The work function has been
invoked at most once, whatever calls were made.  If some call of `Cancel` has returned
true anywhere in the execution, then at `s1` and at `s2` the work function has not been
invoked, `f.Start` is false and `f.Result` is still nil. -/
theorem cancel_true_work_never_invoked (work : Work) (now : Nat) (sched1 sched2 : List Action)
    (s1 s2 : State) (e1 e2 : List Event)
    (h1 : run work sched1 (StartGo now) = some (s1, e1))
    (h2 : run work sched2 s1 = some (s2, e2)) :
    s1.calls ≤ 1 ∧ s2.calls ≤ 1 ∧
      ((∃ m, (⟨.Cancel m, .bool true⟩ : Event) ∈ e1 ++ e2) →
        (s1.calls = 0 ∧ s1.future.Start = false ∧ s1.future.Result = []) ∧
        (s2.calls = 0 ∧ s2.future.Start = false ∧ s2.future.Result = [])) := by
  have hR1 := Reach.of_run h1
  have hI1 := hR1.inv
  have hI2 := (hR1.after h2).inv
  have hle : ∀ {s : State} {evs : List Event}, Inv work s evs → s.calls ≤ 1 := by
    intro s evs hI
    rw [hI.w.calls]
    split <;> decide
  refine ⟨hle hI1, hle hI2, ?_⟩
  rintro ⟨m, hm⟩
  have hq := (hI2.tookQuit_of_cancelTrue hm rfl).2
  have hb2 := WorkerPC.beforeDefault_of_tookQuit hq
  have hb1 : s1.worker.beforeDefault = true :=
    @run_reflects work (fun s => s.worker.beforeDefault = true)
      (fun _ _ _ _ hs h => step_beforeDefault hs h) _ _ _ _ h2 hb2
  have r1 := hI1.nothing_before_default hb1
  have r2 := hI2.nothing_before_default hb2
  exact ⟨⟨r1.1, r1.2.1, r1.2.2.2⟩, ⟨r2.1, r2.2.1, r2.2.2.2⟩⟩

theorem cancel_true_work_never_invoked_witness :
    run function cancelFirst (StartGo 0)
        = some (cancelFirstState, [⟨.Cancel true, .bool true⟩]) ∧
      run function [.worker, .tick] cancelFirstState = some (cancelFirstLater, []) ∧
      (cancelFirstState.calls ≤ 1 ∧ cancelFirstLater.calls ≤ 1 ∧
        ((∃ m, (⟨.Cancel m, .bool true⟩ : Event) ∈ [⟨.Cancel true, .bool true⟩] ++ []) →
          (cancelFirstState.calls = 0 ∧ cancelFirstState.future.Start = false ∧
            cancelFirstState.future.Result = []) ∧
          (cancelFirstLater.calls = 0 ∧ cancelFirstLater.future.Start = false ∧
            cancelFirstLater.future.Result = []))) :=
  ⟨by decide, by decide,
    cancel_true_work_never_invoked function 0 cancelFirst [.worker, .tick] cancelFirstState
      cancelFirstLater [⟨.Cancel true, .bool true⟩] [] (by decide) (by decide)⟩

/-! ## C3 and C4: `Cancel` blocked in its send -/

/-- What a step of the worker leaves alone: the clock, `f.Cancelled`, `f.Err`; it never
returns to its `select`; and, unless it stands at the `select`, it does not touch the
caller or `KillChannel`. -/
theorem workerStep_frame {work : Work} {s s1 : State} (hs : workerStep work s = some s1) :
    s1.now = s.now ∧ s1.future.Cancelled = s.future.Cancelled ∧ s1.future.Err = s.future.Err ∧
      s1.worker.isSelect = false ∧
      (s.worker.isSelect = false → s1.caller = s.caller ∧ s1.kills = s.kills) := by
  unfold workerStep at hs
  split at hs
  all_goals (rename_i hw; rw [hw])
  all_goals (try split at hs)
  all_goals (try (simp only [Option.some.injEq, reduceCtorEq] at hs))
  all_goals (try subst hs)
  all_goals (first | exact ⟨rfl, rfl, rfl, rfl, fun _ => ⟨rfl, rfl⟩⟩
                   | exact ⟨rfl, rfl, rfl, rfl, fun h => (by cases h)⟩)

theorem callerStep_cancelSend {pick : Pick} {s : State} {m : Bool}
    (hc : s.caller = .cancelSend m) : callerStep pick s = none := by
  unfold callerStep
  simp only [hc]

/-- A caller blocked in `f.KillChannel <- true` while the worker is past its `select`
stays blocked along every step. -/
theorem step_cancelSend_blocked {work : Work} {a : Action} {s s1 : State} {e : List Event}
    {m : Bool} (hc : s.caller = .cancelSend m) (hw : s.worker.isSelect = false)
    (hs : step work a s = some (s1, e)) :
    s1.caller = .cancelSend m ∧ s1.worker.isSelect = false ∧ e = [] ∧
      s1.future.Cancelled = s.future.Cancelled ∧ s1.kills = s.kills := by
  unfold step at hs
  split at hs
  · cases hs
  · cases a with
    | invoke op =>
      have h := (invokeStep_frame hs).2.2.2.2.2.2
      rw [hc] at h
      cases h
    | caller pick =>
      have hs1 : callerStep pick s = some (s1, e) := hs
      rw [callerStep_cancelSend hc] at hs1
      cases hs1
    | worker =>
      simp only [Option.map_eq_some', Prod.mk.injEq] at hs
      obtain ⟨s2, h2, rfl, rfl⟩ := hs
      obtain ⟨-, h3, -, h4, h5⟩ := workerStep_frame h2
      exact ⟨(h5 hw).1.trans hc, h4, rfl, h3, (h5 hw).2⟩
    | tick =>
      simp only [Option.some.injEq, Prod.mk.injEq] at hs
      obtain ⟨rfl, rfl⟩ := hs
      exact ⟨hc, hw, rfl, rfl, rfl⟩

/-- A caller blocked in `f.KillChannel <- true` while the worker is past its `select`
is blocked forever: along every schedule no call returns, `f.Cancelled` keeps its value
and nothing is delivered on `KillChannel`. -/
theorem run_cancelSend_blocked {work : Work} {sched : List Action} {s s1 : State}
    {e : List Event} {m : Bool} (hc : s.caller = .cancelSend m)
    (hw : s.worker.isSelect = false) (hr : run work sched s = some (s1, e)) :
    s1.caller = .cancelSend m ∧ e = [] ∧ s1.future.Cancelled = s.future.Cancelled ∧
      s1.kills = s.kills := by
  induction sched generalizing s e with
  | nil =>
    obtain ⟨rfl, rfl⟩ := run_nil_eq_some hr
    exact ⟨hc, rfl, rfl, rfl⟩
  | cons a as ih =>
    obtain ⟨s2, e2, e3, h2, h3, rfl⟩ := run_cons_eq_some hr
    obtain ⟨k1, k2, k3, k4, k5⟩ := step_cancelSend_blocked hc hw h2
    obtain ⟨j1, j2, j3, j4⟩ := ih k1 k2 h3
    exact ⟨j1, by rw [k3, j2]; rfl, j3.trans k4, j4.trans k5⟩

theorem WorkerPC.not_isSelect_of_started {w : WorkerPC} (h : w.started = true) :
    w.isSelect = false := by
  cases w <;> first | rfl | cases h

/-- Claim C3, what the code does. `Cancel` on a Pending future need not return.  For every
work function and both values of `mayInterruptIfRunning`: after the worker has taken the
`default` branch of its `select` every field of the future is still as `StartGo` left it
(Pending); a `Cancel` called then reads the four fields and reaches
`f.KillChannel <- true`; from there, along every schedule, the call never returns and
`f.Cancelled` stays false. -/
theorem cancel_pending_can_block (work : Work) (now : Nat) (m : Bool) :
    run work [.worker] (StartGo now) = some ({ StartGo now with worker := .setStart }, []) ∧
    run work (.invoke (.Cancel m) :: callerSteps 4) { StartGo now with worker := .setStart }
      = some (pendingBlocked now m, []) ∧
    ∀ (sched : List Action) (s1 : State) (e : List Event),
      run work sched (pendingBlocked now m) = some (s1, e) →
        s1.caller = .cancelSend m ∧ e = [] ∧ s1.future.Cancelled = false := by
  refine ⟨rfl, rfl, ?_⟩
  intro sched s1 e hr
  have h := @run_cancelSend_blocked work sched (pendingBlocked now m) s1 e m rfl rfl hr
  exact ⟨h.1, h.2.1, h.2.2.1⟩

theorem cancel_pending_can_block_witness :
    run function [.worker, .tick, .worker] (pendingBlocked 0 true)
        = some (pendingBlockedLater, []) ∧
      (pendingBlockedLater.caller = .cancelSend true ∧ ([] : List Event) = [] ∧
        pendingBlockedLater.future.Cancelled = false) :=
  ⟨by decide,
    (cancel_pending_can_block function 0 true).2.2 [.worker, .tick, .worker]
      pendingBlockedLater [] (by decide)⟩

/-- If `Cancel` has returned true at some point of an execution, the worker had not
left its `select` by `default` at any earlier point. -/
theorem Reach.beforeDefault_of_cancelTrue {work : Work} {s1 s2 : State} {e1 e2 : List Event}
    {sched : List Action} (h1 : Reach work s1 e1) (h2 : run work sched s1 = some (s2, e2))
    {m : Bool} (hm : (⟨.Cancel m, .bool true⟩ : Event) ∈ e1 ++ e2) :
    s1.worker.beforeDefault = true ∧ s2.worker.beforeDefault = true := by
  have hI2 := (h1.after h2).inv
  have hq := (hI2.tookQuit_of_cancelTrue hm rfl).2
  have hb2 := WorkerPC.beforeDefault_of_tookQuit hq
  exact ⟨@run_reflects work (fun s => s.worker.beforeDefault = true)
      (fun _ _ _ _ hs h => step_beforeDefault hs h) _ _ _ _ h2 hb2, hb2⟩

/-- Claim C4, what the code does. `Cancel(true)` on a Running future never returns true.
Take any state reached from `StartGo` in which the process is alive, the caller is idle
and the future is Running (`Start` true, `Cancelled` and `Success` false, `Err` nil).
A `Cancel(true)` called there reads the four fields and reaches `f.KillChannel <- true`
(line 71); from there, along every schedule, the call never returns and `f.Cancelled`
stays false.  Moreover, however the execution continues from the Running state, no call
of `Cancel` ever returns true. -/
theorem cancel_true_running_blocks (work : Work) (now : Nat) (sched0 : List Action)
    (s0 : State) (evs0 : List Event)
    (h0 : run work sched0 (StartGo now) = some (s0, evs0))
    (hcr : s0.crashed = false) (hidle : s0.caller = .idle)
    (hst : s0.future.Start = true) (hca : s0.future.Cancelled = false)
    (hsu : s0.future.Success = false) (her : s0.future.Err = none) :
    run work (.invoke (.Cancel true) :: callerSteps 4) s0
      = some ({ s0 with caller := .cancelSend true }, []) ∧
    (∀ (sched : List Action) (s1 : State) (e : List Event),
      run work sched { s0 with caller := .cancelSend true } = some (s1, e) →
        s1.caller = .cancelSend true ∧ e = [] ∧ s1.future.Cancelled = false) ∧
    (∀ (sched : List Action) (s1 : State) (e : List Event),
      run work sched s0 = some (s1, e) →
        ∀ m, (⟨.Cancel m, .bool true⟩ : Event) ∉ evs0 ++ e) := by
  have hR := Reach.of_run h0
  have hI := hR.inv
  have hw : s0.worker.started = true := by rw [← hI.w.start]; exact hst
  refine ⟨?_, ?_, ?_⟩
  · obtain ⟨⟨st, su, ca, er, re⟩, w, c, n, k1, k2⟩ := s0
    simp only at hidle hst hca hsu her
    subst hidle hst hca hsu her
    cases w <;> first | rfl | cases hcr
  · intro sched s1 e hr
    have h := @run_cancelSend_blocked work sched { s0 with caller := .cancelSend true } s1 e true
      rfl (WorkerPC.not_isSelect_of_started hw) hr
    exact ⟨h.1, h.2.1, h.2.2.1.trans hca⟩
  · intro sched s1 e hr m hm
    have hb := (hR.beforeDefault_of_cancelTrue hr hm).1
    have h1 := (hI.nothing_before_default hb).2.1
    rw [hst] at h1
    cases h1

theorem cancel_true_running_blocks_witness :
    run function [.worker, .worker] (StartGo 0) = some (runningState, []) ∧
      runningState.crashed = false ∧ runningState.caller = .idle ∧
      runningState.future.Start = true ∧ runningState.future.Cancelled = false ∧
      runningState.future.Success = false ∧ runningState.future.Err = none ∧
      run function (.invoke (.Cancel true) :: callerSteps 4) runningState
          = some ({ runningState with caller := .cancelSend true }, []) :=
  ⟨by decide, by decide, by decide, by decide, by decide, by decide, by decide,
    (cancel_true_running_blocks function 0 [.worker, .worker] runningState [] (by decide)
      (by decide) (by decide) (by decide) (by decide) (by decide) (by decide)).1⟩

/-! ## C8: a panic of the work function -/

/-- After an unrecovered panic nothing runs: only the empty schedule can be run. -/
theorem run_crashed {work : Work} {sched : List Action} {s s1 : State} {e : List Event}
    (hc : s.crashed = true) (hr : run work sched s = some (s1, e)) : s1 = s ∧ e = [] := by
  cases sched with
  | nil => exact run_nil_eq_some hr
  | cons a as =>
    obtain ⟨s2, e2, e3, h2, -, -⟩ := run_cons_eq_some hr
    unfold step at h2
    rw [if_pos hc] at h2
    cases h2

/-- An execution with a work function that panics with `"boom"`.  After the worker's
four steps up to the call the panic has left the goroutine; `f.Err` is nil and `IsDone()`
is false, and they stay so for ever, because no step is enabled any more: no `Get`
returns. -/
theorem panic_not_recovered :
    run (.panics "boom") [.worker, .worker, .worker, .worker] (StartGo 0)
        = some (panickedState, []) ∧
      panickedState.future.Err = none ∧ panickedState.future.IsDone = false ∧
      (∀ a, step (.panics "boom") a panickedState = none) ∧
      (∀ (sched : List Action) (s1 : State) (e : List Event),
        run (.panics "boom") sched panickedState = some (s1, e) →
          s1 = panickedState ∧ e = []) :=
  ⟨by decide, by decide, by decide, fun _ => rfl, fun _ _ _ hr => run_crashed rfl hr⟩

/-- Claim C8, what the code does.  For every work function whose invocation panics with
`x`, the panic is not recovered.  At every point of every execution from `StartGo`:
`f.Err` is nil, `f.Success` is false and `f.Result` is nil, so `IsDone()` is true exactly
if the future is cancelled; once the work function has been invoked the worker is inside
the call or has panicked with `x`; the step that ends the call is the panic; after the
panic no step of any goroutine is enabled; and every `Get` / `GetWithTimeout` that has
returned returned `nil` with a `CancellationError` or a `TimeoutError`, never a result and
never an error carrying `x`. -/
theorem panic_propagates (x : String) (now : Nat) (sched : List Action) (s : State)
    (evs : List Event) (h : run (.panics x) sched (StartGo now) = some (s, evs)) :
    s.future.Err = none ∧ s.future.Success = false ∧ s.future.Result = [] ∧
      s.future.IsDone = s.future.Cancelled ∧
      (s.worker.invoked = true → s.worker = .inCall ∨ s.worker = .panicked x) ∧
      (∀ s1, s.worker = .inCall → workerStep (.panics x) s = some s1 →
        s1.worker = .panicked x) ∧
      (s.worker = .panicked x → ∀ a, step (.panics x) a s = none) ∧
      (∀ e ∈ evs, ∀ r err, e.ret = .pair r err →
        r = [] ∧ ∃ t, err = some (GoError.CancellationError cancelMsg t) ∨
          err = some (GoError.TimeoutError timeoutMsg t)) := by
  have hI := (Reach.of_run h).inv
  have hnr : s.worker.returned = false := by
    cases hr : s.worker.returned
    · rfl
    · cases hI.w.returned hr
  have hsu : s.future.Success = false := by
    cases hs : s.future.Success
    · rfl
    · rw [WorkerPC.returned_of_wroteSuccess (hI.w.success hs)] at hnr
      cases hnr
  have hre : s.future.Result = [] := by
    rcases hI.w.result with h1 | h1
    · exact h1
    · exact h1
  refine ⟨hI.w.err, hsu, hre, ?_, ?_, ?_, ?_, ?_⟩
  · simp only [Future.IsDone, hsu, hI.w.err, Option.isSome_none, Bool.or_false]
  · intro hinv
    have hp := hI.w.panicked
    generalize s.worker = w at hnr hinv hp
    cases w <;> first
      | exact Or.inl rfl
      | (cases hnr; done)
      | (cases hinv; done)
      | (rename_i y; cases hp y rfl; exact Or.inr rfl)
  · intro s1 hw hs
    unfold workerStep at hs
    simp only [hw, Option.some.injEq] at hs
    rw [← hs]
  · intro hw a
    unfold step State.crashed
    simp only [hw, if_true]
  · intro e he r err hret
    have hok := hI.c.evsOk e he
    unfold Event.ok at hok
    rw [hret] at hok
    cases err with
    | none => cases hok.1
    | some er =>
      obtain ⟨h1, t, h2⟩ := hok
      refine ⟨h1, t, ?_⟩
      rcases h2 with h2 | h2
      · exact Or.inl (by rw [h2])
      · exact Or.inr (by rw [h2])

theorem panic_propagates_witness :
    run (.panics "boom") [.worker, .worker, .worker, .worker] (StartGo 0)
        = some (panickedState, []) ∧
      panickedState.future.Err = none ∧ panickedState.future.Success = false :=
  ⟨by decide,
    (panic_propagates "boom" 0 [.worker, .worker, .worker, .worker] panickedState []
      (by decide)).1,
    (panic_propagates "boom" 0 [.worker, .worker, .worker, .worker] panickedState []
      (by decide)).2.1⟩

/-! ## C2: `Cancel` on a terminal future -/

/-- On a terminal future the worker writes no field any more, delivers nothing on
`KillChannel` and does not touch the caller. -/
theorem workerStep_terminal_frame {work : Work} {s s1 : State} {evs : List Event}
    (hI : Inv work s evs) (hd : s.future.IsDone = true) (hs : workerStep work s = some s1) :
    s1.future = s.future ∧ s1.kills = s.kills ∧ s1.caller = s.caller := by
  have hw : s.worker.tookQuit = true ∨ s.worker.wroteSuccess = true := by
    unfold Future.IsDone at hd
    rw [hI.w.err] at hd
    cases hca : s.future.Cancelled
    · cases hsu : s.future.Success
      · rw [hca, hsu] at hd; cases hd
      · exact Or.inr (hI.w.success hsu)
    · have h1 := hI.c.cancelled
      rw [hca] at h1
      exact Or.inl h1.symm
  unfold workerStep at hs
  split at hs
  all_goals (rename_i hw1; rw [hw1] at hw)
  all_goals (try split at hs)
  all_goals (try (simp only [Option.some.injEq, reduceCtorEq] at hs))
  all_goals (try subst hs)
  all_goals (first | exact ⟨rfl, rfl, rfl⟩ | (rcases hw with h | h <;> cases h))

theorem step_cancelTerminal {work : Work} {a : Action} {s s1 : State} {evs e e1 : List Event}
    {m : Bool} {f0 : Future} {k0 : Nat}
    (hI : Inv work s evs) (hd : f0.IsDone = true) (ha : a.isInvoke = false)
    (hf : s.future = f0) (hk : s.kills = k0) (hJ : CancelTerminal m f0 s.caller e)
    (hs : step work a s = some (s1, e1)) :
    s1.future = f0 ∧ s1.kills = k0 ∧ CancelTerminal m f0 s1.caller (e ++ e1) := by
  unfold step at hs
  split at hs
  · cases hs
  · cases a with
    | invoke op => cases ha
    | tick =>
      simp only [Option.some.injEq, Prod.mk.injEq] at hs
      obtain ⟨rfl, rfl⟩ := hs
      exact ⟨hf, hk, by simpa using hJ⟩
    | worker =>
      simp only [Option.map_eq_some', Prod.mk.injEq] at hs
      obtain ⟨s2, h2, rfl, rfl⟩ := hs
      obtain ⟨h3, h4, h5⟩ := workerStep_terminal_frame hI (hf ▸ hd) h2
      exact ⟨h3.trans hf, h4.trans hk, by rw [h5]; simpa using hJ⟩
    | caller pick =>
      have hs1 : callerStep pick s = some (s1, e1) := hs
      unfold callerStep at hs1
      rcases hJ with ⟨hc, -⟩ | ⟨he, hc | ⟨hc, h1⟩ | ⟨hc, h1, h2⟩⟩
      · simp only [hc] at hs1
        cases hs1
      · simp only [hc] at hs1
        split at hs1
        · simp only [ret, Option.some.injEq, Prod.mk.injEq] at hs1
          obtain ⟨rfl, rfl⟩ := hs1
          exact ⟨hf, hk, Or.inl ⟨rfl, by rw [he]; rfl⟩⟩
        · rename_i hn
          simp only [goto, Option.some.injEq, Prod.mk.injEq] at hs1
          obtain ⟨rfl, rfl⟩ := hs1
          exact ⟨hf, hk, Or.inr ⟨by rw [he]; rfl,
            Or.inr (Or.inl ⟨rfl, by rw [← hf]; exact Bool.eq_false_iff.2 hn⟩)⟩⟩
      · simp only [hc] at hs1
        split at hs1
        · simp only [ret, Option.some.injEq, Prod.mk.injEq] at hs1
          obtain ⟨rfl, rfl⟩ := hs1
          exact ⟨hf, hk, Or.inl ⟨rfl, by rw [he]; rfl⟩⟩
        · rename_i hn
          simp only [goto, Option.some.injEq, Prod.mk.injEq] at hs1
          obtain ⟨rfl, rfl⟩ := hs1
          exact ⟨hf, hk, Or.inr ⟨by rw [he]; rfl,
            Or.inr (Or.inr ⟨rfl, h1, by rw [← hf]; exact Bool.eq_false_iff.2 hn⟩)⟩⟩
      · simp only [hc] at hs1
        split at hs1
        · simp only [ret, Option.some.injEq, Prod.mk.injEq] at hs1
          obtain ⟨rfl, rfl⟩ := hs1
          exact ⟨hf, hk, Or.inl ⟨rfl, by rw [he]; rfl⟩⟩
        · rename_i hn
          exfalso
          unfold Future.IsDone at hd
          rw [h1, h2, ← hf] at hd
          exact hn hd

theorem run_cancelTerminal {work : Work} {sched : List Action} {s s1 : State}
    {evs e e1 : List Event} {m : Bool} {f0 : Future} {k0 : Nat}
    (hR : Reach work s evs) (hd : f0.IsDone = true)
    (ha : ∀ a ∈ sched, a.isInvoke = false)
    (hf : s.future = f0) (hk : s.kills = k0) (hJ : CancelTerminal m f0 s.caller e)
    (hr : run work sched s = some (s1, e1)) :
    s1.future = f0 ∧ s1.kills = k0 ∧ CancelTerminal m f0 s1.caller (e ++ e1) := by
  induction sched generalizing s evs e e1 with
  | nil =>
    obtain ⟨rfl, rfl⟩ := run_nil_eq_some hr
    exact ⟨hf, hk, by simpa using hJ⟩
  | cons a as ih =>
    obtain ⟨s2, e2, e3, h2, h3, rfl⟩ := run_cons_eq_some hr
    obtain ⟨k1, k2, k3⟩ :=
      step_cancelTerminal hR.inv hd (ha a (List.mem_cons_self a as)) hf hk hJ h2
    have := ih (Reach.next a hR h2) (fun b hb => ha b (List.mem_cons_of_mem a hb)) k1 k2 k3 h3
    simpa [List.append_assoc] using this

theorem run_ticks {work : Work} (k : Nat) (s : State) (hcr : s.crashed = false) :
    run work (ticks k) s = some ({ s with now := s.now + k }, []) := by
  induction k generalizing s with
  | zero => rfl
  | succ k ih =>
    have h1 : step work .tick s = some ({ s with now := s.now + 1 }, []) := by
      unfold step
      rw [if_neg (by rw [hcr]; decide)]
    have h2 := ih { s with now := s.now + 1 } hcr
    have h3 : ticks (k + 1) = [.tick] ++ ticks k := rfl
    rw [h3, run_append (show run work [.tick] s = some (_, []) by unfold run; rw [h1]; rfl) h2]
    simp only [List.append_nil, Nat.add_assoc, Nat.add_comm 1 k]

theorem step_invoke_idle (work : Work) {s : State} (op : Op)
    (hcr : s.crashed = false) (hidle : s.caller = .idle) :
    ∃ c, step work (.invoke op) s = some ({ s with caller := c }, []) ∧
      invokeStep op s = some ({ s with caller := c }, []) := by
  unfold step
  rw [if_neg (by rw [hcr]; decide)]
  unfold invokeStep
  simp only [hidle]
  cases op <;> exact ⟨_, rfl, rfl⟩

theorem Inv.not_crashed_of_isDone {work : Work} {s : State} {evs : List Event}
    (hI : Inv work s evs) (hd : s.future.IsDone = true) : s.crashed = false := by
  have hw : s.worker.tookQuit = true ∨ s.worker.wroteSuccess = true := by
    unfold Future.IsDone at hd
    rw [hI.w.err] at hd
    cases hca : s.future.Cancelled
    · cases hsu : s.future.Success
      · rw [hca, hsu] at hd; cases hd
      · exact Or.inr (hI.w.success hsu)
    · have h1 := hI.c.cancelled
      rw [hca] at h1
      exact Or.inl h1.symm
  unfold State.crashed
  generalize s.worker = w at hw
  cases w <;> first | rfl | (rcases hw with h | h <;> cases h)

/-- Claim C2. For every terminal future (`IsDone()` true: `f.Cancelled`, or `f.Success`, or
`f.Err != nil`), in a live process with an idle caller, and for both values of
`mayInterruptIfRunning`:

* run without interruption, `Cancel` returns false after reading at most three fields and
  leaves the whole state as it was: every field of `f`, the counter of values delivered
  on `KillChannel`, the worker;
* hence any sequence of `Cancel` calls returns false every time and ends in the same
  state;
* if the state is reachable from `StartGo`, the same holds however the worker and the
  clock are interleaved with the call: at every moment all fields of `f` and the counter
  of `KillChannel` are as before the call, the caller has returned false or is still
  reading the fields of line 67 (it never stands at a send), and it is never blocked. -/
theorem cancel_terminal_returns_false (work : Work) (s : State)
    (hcr : s.crashed = false) (hidle : s.caller = .idle) (hdone : s.future.IsDone = true) :
    (∀ m, run work (cancelCall s.future m) s = some (s, [⟨.Cancel m, .bool false⟩])) ∧
    (∀ ms : List Bool, run work (ms.flatMap (cancelCall s.future)) s
        = some (s, ms.map (fun m => ⟨.Cancel m, .bool false⟩))) ∧
    (∀ (now : Nat) (sched0 : List Action) (evs0 : List Event),
      run work sched0 (StartGo now) = some (s, evs0) →
      ∀ (m : Bool) (sched : List Action) (s1 : State) (e : List Event),
        (∀ a ∈ sched, a.isInvoke = false) →
        run work (.invoke (.Cancel m) :: sched) s = some (s1, e) →
          s1.future = s.future ∧ s1.kills = s.kills ∧ CancelTerminal m s.future s1.caller e ∧
            (e = [] ∨ e = [⟨.Cancel m, .bool false⟩]) ∧
            (e = [] → ∀ pick, ∃ s2 e2, step work (.caller pick) s1 = some (s2, e2))) := by
  have h1 : ∀ m, run work (cancelCall s.future m) s = some (s, [⟨.Cancel m, .bool false⟩]) := by
    intro m
    obtain ⟨⟨st, su, ca, er, re⟩, w, c, n, k1, k2⟩ := s
    simp only at hidle
    subst hidle
    cases ca <;> cases su <;> cases er <;>
      first
      | (cases w <;> first | rfl | (cases hcr; done))
      | cases hdone
  refine ⟨h1, ?_, ?_⟩
  · intro ms
    induction ms with
    | nil => rfl
    | cons m ms ih =>
      have := run_append (h1 m) ih
      simpa [List.flatMap_cons] using this
  · intro now sched0 evs0 h0 m sched s1 e ha hr
    have hR := Reach.of_run h0
    obtain ⟨s2, e2, e3, h2, h3, rfl⟩ := run_cons_eq_some hr
    obtain ⟨c, hc1, hc2⟩ := step_invoke_idle work (.Cancel m) hcr hidle
    have hc3 : c = .cancelCancelled m := by
      unfold invokeStep at hc2
      simp only [hidle, goto, Option.some.injEq, Prod.mk.injEq, and_true] at hc2
      have := congrArg State.caller hc2
      exact this.symm
    rw [hc1] at h2
    simp only [Option.some.injEq, Prod.mk.injEq] at h2
    obtain ⟨rfl, rfl⟩ := h2
    have hR2 : Reach work { s with caller := c } (evs0 ++ []) := Reach.next _ hR hc1
    obtain ⟨k1, k2, k3⟩ := @run_cancelTerminal work sched _ s1 _ [] e3 m s.future s.kills
      hR2 hdone ha rfl rfl (Or.inr ⟨rfl, Or.inl hc3⟩) h3
    have k3a : CancelTerminal m s.future s1.caller e3 := by simpa using k3
    refine ⟨k1, k2, by simpa using k3, ?_, ?_⟩
    · rcases k3a with ⟨-, he⟩ | ⟨he, -⟩
      · exact Or.inr (by simpa using he)
      · exact Or.inl (by simpa using he)
    · intro he pick
      have hI1 := (hR2.after h3).inv
      have hcr1 : s1.crashed = false := hI1.not_crashed_of_isDone (k1 ▸ hdone)
      have he3 : e3 = [] := by simpa using he
      unfold step
      rw [if_neg (by rw [hcr1]; decide)]
      show ∃ s2 e2, callerStep pick s1 = some (s2, e2)
      unfold callerStep
      rcases k3a with ⟨-, he'⟩ | ⟨-, hc | ⟨hc, -⟩ | ⟨hc, -⟩⟩
      · rw [he3] at he'; cases he'
      · simp only [hc]; split <;> exact ⟨_, _, rfl⟩
      · simp only [hc]; split <;> exact ⟨_, _, rfl⟩
      · simp only [hc]; split <;> exact ⟨_, _, rfl⟩

theorem cancel_terminal_returns_false_witness :
    cancelFirstState.crashed = false ∧ cancelFirstState.caller = .idle ∧
      cancelFirstState.future.IsDone = true ∧
      run function (cancelCall cancelFirstState.future true) cancelFirstState
        = some (cancelFirstState, [⟨.Cancel true, .bool false⟩]) :=
  ⟨by decide, by decide, by decide,
    (cancel_terminal_returns_false function cancelFirstState (by decide) (by decide)
      (by decide)).1 true⟩

/-! ## C5: `Cancel(false)` on a Running future -/

/-- A step of the worker never resets `f.Start`, and it leaves the caller and
`KillChannel` alone unless the caller is blocked in the send of `Cancel`. -/
theorem workerStep_frame_caller {work : Work} {s s1 : State}
    (hs : workerStep work s = some s1) :
    (s.future.Start = true → s1.future.Start = true) ∧
      ((∀ m, s.caller ≠ .cancelSend m) → s1.caller = s.caller ∧ s1.kills = s.kills) := by
  unfold workerStep at hs
  split at hs
  all_goals (try split at hs)
  all_goals (try (simp only [Option.some.injEq, reduceCtorEq] at hs))
  all_goals (try subst hs)
  all_goals (first | exact ⟨fun h => h, fun _ => ⟨rfl, rfl⟩⟩
                   | exact ⟨fun _ => rfl, fun _ => ⟨rfl, rfl⟩⟩
                   | (rename_i hc; exact ⟨fun h => h, fun h => absurd hc (h _)⟩))

theorem CancelRunning.not_cancelSend {c : CallerPC} {e : List Event} (h : CancelRunning c e) :
    ∀ m, c ≠ .cancelSend m := by
  intro m hc
  rcases h with ⟨h, -⟩ | ⟨-, h | h | h | h⟩ <;> (rw [hc] at h; cases h)

theorem step_cancelRunning {work : Work} {a : Action} {s s1 : State} {e e1 : List Event}
    (ha : a.isInvoke = false) (hst : s.future.Start = true) (her : s.future.Err = none)
    (hJ : CancelRunning s.caller e) (hs : step work a s = some (s1, e1)) :
    s1.future.Start = true ∧ s1.future.Err = none ∧
      s1.future.Cancelled = s.future.Cancelled ∧ s1.kills = s.kills ∧
      CancelRunning s1.caller (e ++ e1) ∧
      (∀ pick, a = .caller pick → s1.future = s.future ∧ s1.worker = s.worker) := by
  unfold step at hs
  split at hs
  · cases hs
  · cases a with
    | invoke op => cases ha
    | tick =>
      simp only [Option.some.injEq, Prod.mk.injEq] at hs
      obtain ⟨rfl, rfl⟩ := hs
      exact ⟨hst, her, rfl, rfl, by simpa using hJ, fun _ h => by cases h⟩
    | worker =>
      simp only [Option.map_eq_some', Prod.mk.injEq] at hs
      obtain ⟨s2, h2, rfl, rfl⟩ := hs
      obtain ⟨-, h3, h4, -, -⟩ := workerStep_frame h2
      obtain ⟨h5, h6⟩ := workerStep_frame_caller h2
      obtain ⟨h7, h8⟩ := h6 hJ.not_cancelSend
      exact ⟨h5 hst, h4.trans her, h3, h8, by rw [h7]; simpa using hJ, fun _ h => by cases h⟩
    | caller pick =>
      have hs1 : callerStep pick s = some (s1, e1) := hs
      unfold callerStep at hs1
      rcases hJ with ⟨hc, -⟩ | ⟨he, hc | hc | hc | hc⟩
      · simp only [hc] at hs1
        cases hs1
      all_goals
        simp only [hc] at hs1
        split at hs1
        all_goals (try split at hs1)
        all_goals (try (simp only [goto, ret, Option.some.injEq, Prod.mk.injEq] at hs1))
        all_goals (try (obtain ⟨rfl, rfl⟩ := hs1))
        all_goals
          first
          | exact ⟨hst, her, rfl, rfl, Or.inl ⟨rfl, by rw [he]; rfl⟩, fun _ _ => ⟨rfl, rfl⟩⟩
          | exact ⟨hst, her, rfl, rfl, Or.inr ⟨by rw [he]; rfl, Or.inr (Or.inl rfl)⟩,
              fun _ _ => ⟨rfl, rfl⟩⟩
          | exact ⟨hst, her, rfl, rfl, Or.inr ⟨by rw [he]; rfl, Or.inr (Or.inr (Or.inl rfl))⟩,
              fun _ _ => ⟨rfl, rfl⟩⟩
          | exact ⟨hst, her, rfl, rfl, Or.inr ⟨by rw [he]; rfl, Or.inr (Or.inr (Or.inr rfl))⟩,
              fun _ _ => ⟨rfl, rfl⟩⟩
          | (rename_i h _; exact absurd hst h)
          | contradiction

theorem run_cancelRunning {work : Work} {sched : List Action} {s s1 : State}
    {e e1 : List Event} (ha : ∀ a ∈ sched, a.isInvoke = false)
    (hst : s.future.Start = true) (her : s.future.Err = none)
    (hJ : CancelRunning s.caller e) (hr : run work sched s = some (s1, e1)) :
    s1.future.Start = true ∧ s1.future.Err = none ∧
      s1.future.Cancelled = s.future.Cancelled ∧ s1.kills = s.kills ∧
      CancelRunning s1.caller (e ++ e1) := by
  induction sched generalizing s e e1 with
  | nil =>
    obtain ⟨rfl, rfl⟩ := run_nil_eq_some hr
    exact ⟨hst, her, rfl, rfl, by simpa using hJ⟩
  | cons a as ih =>
    obtain ⟨s2, e2, e3, h2, h3, rfl⟩ := run_cons_eq_some hr
    obtain ⟨k1, k2, k3, k4, k5, -⟩ :=
      step_cancelRunning (ha a (List.mem_cons_self a as)) hst her hJ h2
    obtain ⟨j1, j2, j3, j4, j5⟩ :=
      ih (fun b hb => ha b (List.mem_cons_of_mem a hb)) k1 k2 k5 h3
    exact ⟨j1, j2, j3.trans k3, j4.trans k4, by simpa [List.append_assoc] using j5⟩

/-- What `Cancel(false)` itself does on a Running future (`Start` true, `Cancelled` and
`Success` false, `Err` nil), in a live process with an idle caller:

* run without interruption, `Cancel(false)` reads the four fields, returns false and
  leaves the whole state as it was: every field of `f`, the counter of values delivered
  on `KillChannel`, the worker;
* hence whatever an execution from that state produces, it produces after the call as
  well;
* however the worker and the clock are interleaved with the call, nothing is delivered on
  `KillChannel`, `f.Cancelled` stays false, `f.Err` stays nil, the call has returned
  false or is still reading fields (it never stands at a send), and no step of the call
  changes a field of `f` or the worker;
* in the scenario of the tests (work started, `Cancel(false)`, then `Get()`), `Get()`
  returns the values `vs` of the work with a nil error, and afterwards `f.Success` is
  true and `f.Result` is `vs`.

This does not make a later `Get()` return the result of the work from every Running
state: see the execution `timeoutAfterResult` followed by `cancelFalseThenLateGet`. -/
theorem cancel_false_running_no_effect (work : Work) (s : State)
    (hcr : s.crashed = false) (hidle : s.caller = .idle)
    (hst : s.future.Start = true) (hca : s.future.Cancelled = false)
    (hsu : s.future.Success = false) (her : s.future.Err = none) :
    run work (.invoke (.Cancel false) :: callerSteps 4) s
      = some (s, [⟨.Cancel false, .bool false⟩]) ∧
    (∀ (sched : List Action) (s1 : State) (e : List Event),
      run work sched s = some (s1, e) →
        run work ((.invoke (.Cancel false) :: callerSteps 4) ++ sched) s
          = some (s1, ⟨.Cancel false, .bool false⟩ :: e)) ∧
    (∀ (sched : List Action) (s1 : State) (e : List Event),
      (∀ a ∈ sched, a.isInvoke = false) →
      run work (.invoke (.Cancel false) :: sched) s = some (s1, e) →
        s1.kills = s.kills ∧ s1.future.Cancelled = false ∧ s1.future.Err = none ∧
          s1.future.Start = true ∧ CancelRunning s1.caller e ∧
          (e = [] ∨ e = [⟨.Cancel false, .bool false⟩]) ∧
          (∀ pick s2 e2, step work (.caller pick) s1 = some (s2, e2) →
            s2.future = s1.future ∧ s2.worker = s1.worker ∧ s2.kills = s1.kills)) ∧
    (∀ (vs : List Value) (now : Nat),
      run (.returns vs) cancelFalseThenGet (StartGo now)
        = some ({ future := { Start := true, Success := true, Cancelled := false, Err := none,
                              Result := vs },
                  worker := .done, caller := .idle, now := now, calls := 1, kills := 0 },
                [⟨.Cancel false, .bool false⟩, ⟨.Get, .pair vs none⟩])) := by
  have h1 : run work (.invoke (.Cancel false) :: callerSteps 4) s
      = some (s, [⟨.Cancel false, .bool false⟩]) := by
    obtain ⟨⟨st, su, ca, er, re⟩, w, c, n, k1, k2⟩ := s
    simp only at hidle hst hca hsu her
    subst hidle hst hca hsu her
    cases w <;> first | rfl | cases hcr
  refine ⟨h1, ?_, ?_, ?_⟩
  · intro sched s1 e hr
    exact run_append h1 hr
  · intro sched s1 e ha hr
    obtain ⟨s2, e2, e3, h2, h3, rfl⟩ := run_cons_eq_some hr
    obtain ⟨c, hc1, hc2⟩ := step_invoke_idle work (.Cancel false) hcr hidle
    have hc3 : c = .cancelCancelled false := by
      unfold invokeStep at hc2
      simp only [hidle, goto, Option.some.injEq, Prod.mk.injEq, and_true] at hc2
      exact (congrArg State.caller hc2).symm
    rw [hc1] at h2
    simp only [Option.some.injEq, Prod.mk.injEq] at h2
    obtain ⟨rfl, rfl⟩ := h2
    have hJ0 : CancelRunning ({ s with caller := c } : State).caller [] :=
      Or.inr ⟨rfl, Or.inl hc3⟩
    obtain ⟨k1, k2, k3, k4, k5⟩ :=
      @run_cancelRunning work sched { s with caller := c } s1 [] e3 ha hst her hJ0 h3
    have k5a : CancelRunning s1.caller e3 := by simpa using k5
    refine ⟨k4, k3.trans hca, k2, k1, by simpa using k5, ?_, ?_⟩
    · rcases k5a with ⟨-, he⟩ | ⟨he, -⟩
      · exact Or.inr (by simpa using he)
      · exact Or.inl (by simpa using he)
    · intro pick s2 e2 hs2
      obtain ⟨-, -, -, j4, -, j6⟩ :=
        @step_cancelRunning work (.caller pick) s1 s2 e3 e2 rfl k1 k2 k5a hs2
      exact ⟨(j6 pick rfl).1, (j6 pick rfl).2, j4⟩
  · intro vs now
    have h : run (.returns vs) cancelFalseThenGet (StartGo now)
        = some ({ future := { Start := true, Success := true, Cancelled := false, Err := none,
                              Result := convertTOInterface vs },
                  worker := .done, caller := .idle, now := now, calls := 1, kills := 0 },
                [⟨.Cancel false, .bool false⟩, ⟨.Get, .pair (convertTOInterface vs) none⟩]) :=
      rfl
    rw [convertTOInterface_eq] at h
    exact h

theorem cancel_false_running_no_effect_witness :
    runningState.crashed = false ∧ runningState.caller = .idle ∧
      runningState.future.Start = true ∧ runningState.future.Cancelled = false ∧
      runningState.future.Success = false ∧ runningState.future.Err = none ∧
      run function (.invoke (.Cancel false) :: callerSteps 4) runningState
        = some (runningState, [⟨.Cancel false, .bool false⟩]) :=
  ⟨by decide, by decide, by decide, by decide, by decide, by decide,
    (cancel_false_running_no_effect function runningState (by decide) (by decide) (by decide)
      (by decide) (by decide) (by decide)).1⟩

/-- Claim C5, what the code does. The work returns `["gouri", 100]`.  After the worker has
stored the result (line 207) a `GetWithTimeout(0)` times out and sets `f.Result` to nil;
the future is Running: `Start` true, `Cancelled` and `Success` false, `Err` nil.  On it
`Cancel(false)` returns false and leaves the whole state as it was, nothing is delivered
on `KillChannel`.  The worker then executes `future.Success = true` (line 208), and the
later `Get()` finds `Success` true and returns the emptied `f.Result`: it returns
`(nil, nil)`, not the result of the work, and `f.Result` stays nil. -/
theorem cancel_false_then_get_loses_result :
    function = .returns [.str "gouri", .int 100] ∧
      run function timeoutAfterResult (StartGo 0)
        = some (clearedRunningState,
            [⟨.GetWithTimeout 0, .pair [] (some (.TimeoutError timeoutMsg 0))⟩]) ∧
      (clearedRunningState.future.Start = true ∧ clearedRunningState.future.Cancelled = false ∧
        clearedRunningState.future.Success = false ∧ clearedRunningState.future.Err = none) ∧
      run function (.invoke (.Cancel false) :: callerSteps 4) clearedRunningState
        = some (clearedRunningState, [⟨.Cancel false, .bool false⟩]) ∧
      run function cancelFalseThenLateGet clearedRunningState
        = some (cancelFalseLostState,
            [⟨.Cancel false, .bool false⟩, ⟨.Get, .pair [] none⟩]) ∧
      cancelFalseLostState.kills = 0 ∧
      cancelFalseLostState.future.Success = true ∧ cancelFalseLostState.future.Result = [] ∧
      run function (timeoutAfterResult ++ cancelFalseThenLateGet) (StartGo 0)
        = some (cancelFalseLostState,
            [⟨.GetWithTimeout 0, .pair [] (some (.TimeoutError timeoutMsg 0))⟩,
             ⟨.Cancel false, .bool false⟩, ⟨.Get, .pair [] none⟩]) :=
  ⟨rfl, by decide, ⟨rfl, rfl, rfl, rfl⟩, by decide, by decide, rfl, rfl, rfl, by decide⟩

/-! ## C7: retrieval on a future with a recorded error -/

theorem evs_nil_pair {P : List Value → Option GoError → Prop} :
    ∀ ev ∈ ([] : List Event), ∀ r err, ev.ret = .pair r err → P r err :=
  fun _ h => (List.not_mem_nil _ h).elim

theorem evs_single_bool {P : List Value → Option GoError → Prop} (op : Op) (b : Bool) :
    ∀ ev ∈ [(⟨op, .bool b⟩ : Event)], ∀ r err, ev.ret = .pair r err → P r err := by
  intro ev h r err he
  rw [List.mem_singleton.1 h] at he
  cases he

theorem evs_single_pair {P : List Value → Option GoError → Prop} (op : Op) {r0 : List Value}
    {err0 : Option GoError} (h0 : P r0 err0) :
    ∀ ev ∈ [(⟨op, .pair r0 err0⟩ : Event)], ∀ r err, ev.ret = .pair r err → P r err := by
  intro ev h r err he
  rw [List.mem_singleton.1 h] at he
  cases he
  exact h0

theorem Future.set_cancelled_eq {f : Future} (h : f.Cancelled = true) :
    { f with Cancelled := true } = f := by
  cases f
  simp only at h
  subst h
  rfl

/-- On a cancelled future no step of the caller changes a field, and a retrieval that
returns returns `nil` and a `CancellationError` stamped with the clock. -/
theorem callerStep_cancelled_sticky {work : Work} {pick : Pick} {s s1 : State}
    {evs e1 : List Event} (hI : Inv work s evs) (hca : s.future.Cancelled = true)
    (hs : callerStep pick s = some (s1, e1)) :
    s1.future = s.future ∧
      ∀ ev ∈ e1, ∀ r err, ev.ret = .pair r err →
        r = [] ∧ err = some (GoError.CancellationError cancelMsg s.now) := by
  have hC := hI.c
  unfold callerStep at hs
  simp only at hs
  split at hs
  all_goals (rename_i hc; rw [hc] at hC)
  all_goals (try (have h := hC.saw rfl; rw [hca] at h; cases h))
  all_goals (try split at hs)
  all_goals (try (simp only [goto, ret, Option.some.injEq, Prod.mk.injEq, reduceCtorEq] at hs))
  all_goals (try (obtain ⟨rfl, rfl⟩ := hs))
  all_goals
    first
    | exact ⟨rfl, evs_nil_pair⟩
    | exact ⟨rfl, evs_single_bool _ _⟩
    | exact ⟨rfl, evs_single_pair _ ⟨rfl, rfl⟩⟩
    | exact ⟨Future.set_cancelled_eq hca, evs_single_bool _ _⟩

theorem step_cancelled_sticky {work : Work} {a : Action} {s s1 : State}
    {evs e1 : List Event} (hI : Inv work s evs) (hca : s.future.Cancelled = true)
    (hs : step work a s = some (s1, e1)) :
    s1.future = s.future ∧ s.now ≤ s1.now ∧ s1.now ≤ s.now + 1 ∧
      ∀ ev ∈ e1, ∀ r err, ev.ret = .pair r err →
        r = [] ∧ err = some (GoError.CancellationError cancelMsg s.now) := by
  unfold step at hs
  split at hs
  · cases hs
  · cases a with
    | invoke op =>
      obtain ⟨h1, -, h2, -, -, h3, -⟩ := invokeStep_frame hs
      rw [h3]
      exact ⟨h1, by rw [h2], by rw [h2]; exact Nat.le_succ _, evs_nil_pair⟩
    | tick =>
      simp only [Option.some.injEq, Prod.mk.injEq] at hs
      obtain ⟨rfl, rfl⟩ := hs
      exact ⟨rfl, Nat.le_succ _, Nat.le_refl _, evs_nil_pair⟩
    | worker =>
      simp only [Option.map_eq_some', Prod.mk.injEq] at hs
      obtain ⟨s2, h2, rfl, rfl⟩ := hs
      have hd : s.future.IsDone = true := by
        unfold Future.IsDone
        rw [hca]
        rfl
      obtain ⟨h3, -, -⟩ := workerStep_terminal_frame hI hd h2
      obtain ⟨h4, -⟩ := workerStep_frame h2
      exact ⟨h3, by rw [h4], by rw [h4]; exact Nat.le_succ _, evs_nil_pair⟩
    | caller pick =>
      have hs1 : callerStep pick s = some (s1, e1) := hs
      obtain ⟨h1, h2⟩ := callerStep_cancelled_sticky hI hca hs1
      obtain ⟨-, h3, -, -⟩ := callerStep_frame hs1
      exact ⟨h1, by rw [h3], by rw [h3]; exact Nat.le_succ _, h2⟩

/-- On a cancelled future reached from `StartGo`, along every schedule: the fields never
change, and every retrieval that returns returns `nil` and a `CancellationError` with the
package's message, stamped with the clock at the moment of its return. -/
theorem run_cancelled_sticky {work : Work} {sched : List Action} {s s1 : State}
    {evs e1 : List Event} (hR : Reach work s evs) (hca : s.future.Cancelled = true)
    (hr : run work sched s = some (s1, e1)) :
    s1.future = s.future ∧ s.now ≤ s1.now ∧
      ∀ ev ∈ e1, ∀ r err, ev.ret = .pair r err →
        r = [] ∧ ∃ t, s.now ≤ t ∧ t ≤ s1.now ∧
          err = some (GoError.CancellationError cancelMsg t) := by
  induction sched generalizing s evs e1 with
  | nil =>
    obtain ⟨rfl, rfl⟩ := run_nil_eq_some hr
    exact ⟨rfl, Nat.le_refl _, evs_nil_pair⟩
  | cons a as ih =>
    obtain ⟨s2, e2, e3, h2, h3, rfl⟩ := run_cons_eq_some hr
    obtain ⟨k1, k2, -, k4⟩ := step_cancelled_sticky hR.inv hca h2
    obtain ⟨j1, j2, j3⟩ := ih (Reach.next a hR h2) (by rw [k1]; exact hca) h3
    refine ⟨j1.trans k1, Nat.le_trans k2 j2, ?_⟩
    intro ev hev r err he
    rcases List.mem_append.1 hev with hm | hm
    · obtain ⟨q1, q2⟩ := k4 ev hm r err he
      exact ⟨q1, s.now, Nat.le_refl _, Nat.le_trans k2 j2, q2⟩
    · obtain ⟨q1, t, q2, q3, q4⟩ := j3 ev hm r err he
      exact ⟨q1, t, Nat.le_trans k2 q2, q3, q4⟩

/-- Claim C7, counterexample. On a cancelled future two subsequent calls of `Get()` return
different error values: each call builds a new `CancellationError` stamped `time.Now()`,
so the one returned after the clock has ticked carries another time stamp. -/
theorem cancelled_get_timestamps_differ :
    run function cancelThenGetTwice (StartGo 0)
        = some ({ cancelFirstState with now := 1 },
            [⟨.Cancel true, .bool true⟩,
             ⟨.Get, .pair [] (some (.CancellationError cancelMsg 0))⟩,
             ⟨.Get, .pair [] (some (.CancellationError cancelMsg 1))⟩]) ∧
      GoError.CancellationError cancelMsg 0 ≠ GoError.CancellationError cancelMsg 1 :=
  ⟨by decide, by decide⟩

theorem run_retrieval_cancelled (work : Work) (s : State) (t : Option Int)
    (hcr : s.crashed = false) (hidle : s.caller = .idle) (hca : s.future.Cancelled = true) :
    run work (retrievalCall t (cancelledReads s.future)) s
      = some (s, [⟨getOp t, .pair [] (some (.CancellationError cancelMsg s.now))⟩]) := by
  obtain ⟨⟨st, su, ca, er, re⟩, w, c, n, k1, k2⟩ := s
  simp only at hidle hca
  subst hidle hca
  cases su <;> cases t <;> cases w <;> first | rfl | cases hcr

theorem run_retrieval_err (work : Work) (s : State) (t : Option Int) (err : GoError)
    (hcr : s.crashed = false) (hidle : s.caller = .idle) (hca : s.future.Cancelled = false)
    (hsu : s.future.Success = false) (her : s.future.Err = some err) :
    run work (retrievalCall t 4) s = some (s, [⟨getOp t, .pair [] (some err)⟩]) := by
  obtain ⟨⟨st, su, ca, er, re⟩, w, c, n, k1, k2⟩ := s
  simp only at hidle hca hsu her
  subst hidle hca hsu her
  cases t <;> cases w <;> first | rfl | cases hcr

/-- Claim C7, amended. For every future on which an error has been recorded, in a live
process with an idle caller, two subsequent retrievals (each `Get()` or
`GetWithTimeout(d)`), `k` ticks of the clock apart, leave every field of `f` unchanged and
return `nil` with an error of the same kind and message:

* if `f` is cancelled, each call returns a new `CancellationError` with the message
  `"task is cancelled by user"` stamped with the time of that call (the clock reads
  `now` at the first and `now + k` at the second);
* if `f` is not cancelled, `Success` is false and `f.Err` is an error, both calls return
  that very `f.Err`;
* if `f` is cancelled and the state is reachable from `StartGo`, then however the worker,
  the clock and further calls are interleaved, `f` never changes and every retrieval that
  returns returns `nil` and a `CancellationError` with that message, stamped with a time
  between the starting time and the final time. -/
theorem recorded_error_returned_again (work : Work) (s : State) (t1 t2 : Option Int) (k : Nat)
    (hcr : s.crashed = false) (hidle : s.caller = .idle) :
    (s.future.Cancelled = true →
      run work (retrievalCall t1 (cancelledReads s.future) ++ ticks k ++
          retrievalCall t2 (cancelledReads s.future)) s
        = some ({ s with now := s.now + k },
            [⟨getOp t1, .pair [] (some (.CancellationError cancelMsg s.now))⟩,
             ⟨getOp t2, .pair [] (some (.CancellationError cancelMsg (s.now + k)))⟩])) ∧
    (s.future.Cancelled = false → s.future.Success = false →
      ∀ err, s.future.Err = some err →
        run work (retrievalCall t1 4 ++ ticks k ++ retrievalCall t2 4) s
          = some ({ s with now := s.now + k },
              [⟨getOp t1, .pair [] (some err)⟩, ⟨getOp t2, .pair [] (some err)⟩])) ∧
    (s.future.Cancelled = true →
      ∀ (now : Nat) (sched0 : List Action) (evs0 : List Event),
        run work sched0 (StartGo now) = some (s, evs0) →
        ∀ (sched : List Action) (s1 : State) (e : List Event),
          run work sched s = some (s1, e) →
            s1.future = s.future ∧
              ∀ ev ∈ e, ∀ r err, ev.ret = .pair r err →
                r = [] ∧ ∃ t, s.now ≤ t ∧ t ≤ s1.now ∧
                  err = some (GoError.CancellationError cancelMsg t)) := by
  have hcr2 : ({ s with now := s.now + k } : State).crashed = false := hcr
  refine ⟨?_, ?_, ?_⟩
  · intro hca
    have h1 := run_retrieval_cancelled work s t1 hcr hidle hca
    have h2 := @run_ticks work k s hcr
    have h3 := run_retrieval_cancelled work { s with now := s.now + k } t2 hcr2 hidle hca
    have h4 := run_append (run_append h1 h2) h3
    simpa using h4
  · intro hca hsu err her
    have h1 := run_retrieval_err work s t1 err hcr hidle hca hsu her
    have h2 := @run_ticks work k s hcr
    have h3 := run_retrieval_err work { s with now := s.now + k } t2 err hcr2 hidle hca hsu her
    have h4 := run_append (run_append h1 h2) h3
    simpa using h4
  · intro hca now sched0 evs0 h0 sched s1 e hr
    obtain ⟨j1, -, j3⟩ := run_cancelled_sticky (Reach.of_run h0) hca hr
    exact ⟨j1, j3⟩

theorem recorded_error_returned_again_witness :
    cancelFirstState.crashed = false ∧ cancelFirstState.caller = .idle ∧
      cancelFirstState.future.Cancelled = true ∧
      run function (retrievalCall none (cancelledReads cancelFirstState.future) ++ ticks 1 ++
          retrievalCall none (cancelledReads cancelFirstState.future)) cancelFirstState
        = some ({ cancelFirstState with now := cancelFirstState.now + 1 },
            [⟨getOp none, .pair [] (some (.CancellationError cancelMsg cancelFirstState.now))⟩,
             ⟨getOp none,
               .pair [] (some (.CancellationError cancelMsg (cancelFirstState.now + 1)))⟩]) :=
  ⟨by decide, by decide, by decide,
    (recorded_error_returned_again function cancelFirstState none none 1 (by decide)
      (by decide)).1 (by decide)⟩

/-! ## C6: the timeout path of `GetWithTimeout` -/

/-- Claim C6, what the code does. `GetWithTimeout(0)` is called on the non-terminal future
right after `StartGo` and waits in its `select`; meanwhile the worker writes
`f.Result = ["gouri", 100]` (line 207) and `f.Success = true` (line 208), so the future
is terminal.  The `select` then commits to the expired timer: the call returns
`(nil, TimeoutError)` and has overwritten both fields (lines 161-162), `f.Result` is nil
and `f.Success` false: the fields are not what they were, the values the worker wrote
are lost, and the future whose work has returned is non-terminal again, a following
`IsDone()` returns false. -/
theorem timeout_overwrites_result :
    run function waitingThenWritten (StartGo 0) = some (writtenState, []) ∧
      writtenState.future.IsDone = true ∧
      run function timeoutPath writtenState
        = some ({ writtenState with
                    future := { writtenState.future with Result := [], Success := false },
                    caller := .idle },
                [⟨.GetWithTimeout 0, .pair [] (some (.TimeoutError timeoutMsg 0))⟩]) ∧
      ({ writtenState.future with Result := [], Success := false } : Future)
        ≠ writtenState.future ∧
      ({ writtenState.future with Result := [], Success := false } : Future).IsDone = false ∧
      (StartGo 0).future.IsDone = false ∧
      function = .returns [.str "gouri", .int 100] ∧
      run function (waitingThenWritten ++ timeoutPath ++ (.invoke .IsDone :: callerSteps 3))
          (StartGo 0)
        = some ({ writtenState with
                    future := { writtenState.future with Result := [], Success := false },
                    caller := .idle },
                [⟨.GetWithTimeout 0, .pair [] (some (.TimeoutError timeoutMsg 0))⟩,
                 ⟨.IsDone, .bool false⟩]) :=
  ⟨by decide, by decide, by decide, by decide, by decide, by decide, rfl, by decide⟩

/-- From the `select` with an expired timer, the timeout path returns `nil` and a
`TimeoutError` stamped with the clock, having set `f.Result` to nil and `f.Success` to
false and nothing else. -/
theorem run_timeoutPath (work : Work) (s : State) (d dl : Int)
    (hcr : s.crashed = false) (hc : s.caller = .getSelect (some d) (some dl))
    (hdl : dl ≤ (s.now : Int)) :
    run work timeoutPath s
      = some ({ s with future := { s.future with Result := [], Success := false },
                       caller := .idle },
              [⟨.GetWithTimeout d, .pair [] (some (.TimeoutError timeoutMsg s.now))⟩]) := by
  have h1 : step work (.caller .timeout) s = some ({ s with caller := .tmoResult d }, []) := by
    unfold step
    rw [if_neg (by rw [hcr]; decide)]
    show callerStep .timeout s = _
    unfold callerStep
    simp only [hc, if_pos hdl, goto]
  have h2 : run work (callerSteps 3) { s with caller := .tmoResult d }
      = some ({ s with future := { s.future with Result := [], Success := false },
                       caller := .idle },
              [⟨.GetWithTimeout d, .pair [] (some (.TimeoutError timeoutMsg s.now))⟩]) := by
    obtain ⟨⟨st, su, ca, er, re⟩, w, c, n, k1, k2⟩ := s
    cases w <;> first | rfl | cases hcr
  have h3 : run work [.caller .timeout] s = some ({ s with caller := .tmoResult d }, []) := by
    unfold run
    rw [h1]
    rfl
  exact run_append h3 h2

/-- A non-terminal future: a retrieval reads `f.Success`, `f.Cancelled`, `f.Err`, creates
the timer (`GetWithTimeout`) and reaches the `select`. -/
theorem run_to_select (work : Work) (s : State) (d : Int)
    (hcr : s.crashed = false) (hidle : s.caller = .idle) (hnd : s.future.IsDone = false) :
    run work (.invoke (.GetWithTimeout d) :: callerSteps 4) s
      = some ({ s with caller := .getSelect (some d) (some ((s.now : Int) + d)) }, []) := by
  obtain ⟨⟨st, su, ca, er, re⟩, w, c, n, k1, k2⟩ := s
  simp only at hidle
  subst hidle
  cases ca <;> cases su <;> cases er <;>
    first
    | (cases w <;> first | rfl | (cases hcr; done))
    | cases hnd

/-- The timeout path when the call is not interrupted.  For every non-terminal future, in
a live process with an idle caller, and every timeout `d`: a `GetWithTimeout(d)` that is
not interrupted and whose deadline elapses first (`k` ticks of the clock with `d ≤ k`,
then the `select` commits to the timer) returns `nil` and a `TimeoutError` with the
message `"Time Out, result not found"` stamped with the time of the return; the call has
set `f.Result` to nil and `f.Success` to false (lines 161-162) and has written nothing
else: `Start`, `Cancelled` and `Err` are as before, so is the worker.  The same holds
from any state in which the call stands at its `select` with the deadline reached, when
the worker takes no step before the call returns. -/
theorem timeout_returns_error_and_resets (work : Work) (s : State) (d : Int) (k : Nat)
    (hcr : s.crashed = false) (hidle : s.caller = .idle) (hnd : s.future.IsDone = false)
    (hk : d ≤ (k : Int)) :
    run work (.invoke (.GetWithTimeout d) :: callerSteps 4 ++ ticks k ++ timeoutPath) s
      = some ({ s with future := { s.future with Result := [], Success := false },
                       now := s.now + k },
              [⟨.GetWithTimeout d, .pair [] (some (.TimeoutError timeoutMsg (s.now + k)))⟩]) ∧
    (∀ (s1 : State) (dl : Int), s1.crashed = false →
      s1.caller = .getSelect (some d) (some dl) → dl ≤ (s1.now : Int) →
        run work timeoutPath s1
          = some ({ s1 with future := { s1.future with Result := [], Success := false },
                            caller := .idle },
                  [⟨.GetWithTimeout d,
                    .pair [] (some (.TimeoutError timeoutMsg s1.now))⟩])) := by
  refine ⟨?_, fun s1 dl h1 h2 h3 => run_timeoutPath work s1 d dl h1 h2 h3⟩
  have h1 := run_to_select work s d hcr hidle hnd
  have h2 := @run_ticks work k
    { s with caller := .getSelect (some d) (some ((s.now : Int) + d)) } hcr
  have h3 := run_timeoutPath work
    { s with caller := .getSelect (some d) (some ((s.now : Int) + d)), now := s.now + k }
    d ((s.now : Int) + d) hcr rfl (by simp only [Nat.cast_add]; omega)
  have h4 := run_append (run_append h1 h2) h3
  have h5 : ({ s with future := { s.future with Result := [], Success := false },
                      now := s.now + k } : State)
      = { ({ s with caller := .getSelect (some d) (some ((s.now : Int) + d)),
                    now := s.now + k } : State) with
          future := { s.future with Result := [], Success := false }, caller := .idle } := by
    rw [← hidle]
  rw [h5]
  simpa using h4

theorem timeout_returns_error_and_resets_witness :
    (StartGo 0).crashed = false ∧ (StartGo 0).caller = .idle ∧
      (StartGo 0).future.IsDone = false ∧ (100 : Int) ≤ ((100 : Nat) : Int) ∧
      run function (.invoke (.GetWithTimeout 100) :: callerSteps 4 ++ ticks 100 ++ timeoutPath)
          (StartGo 0)
        = some ({ StartGo 0 with
                    future := { (StartGo 0).future with Result := [], Success := false },
                    now := (StartGo 0).now + 100 },
                [⟨.GetWithTimeout 100,
                  .pair [] (some (.TimeoutError timeoutMsg ((StartGo 0).now + 100)))⟩]) :=
  ⟨by decide, by decide, by decide, by decide,
    (timeout_returns_error_and_resets function (StartGo 0) 100 100 (by decide) (by decide)
      (by decide) (by decide)).1⟩

/-! ## C1: what `Get` returns for a work function that returns -/

/-- Claim C1, what the code does. The work returns `["gouri", 100]` and `Cancel` is never
called, yet `Get()` returns `(nil, nil)`: the timeout path of an earlier
`GetWithTimeout` has set `f.Result` to nil after the worker stored the result and before
the worker set `f.Success`, so `Get()` finds `Success` true and returns the emptied
`f.Result`.  Afterwards `f.Success` is true and `f.Result` is nil, and every further
`Get()` returns `(nil, nil)` again. -/
theorem get_returns_nil_after_timeout :
    run function timeoutBetweenWrites (StartGo 0)
        = some (lostResultState,
            [⟨.GetWithTimeout 0, .pair [] (some (.TimeoutError timeoutMsg 0))⟩,
             ⟨.Get, .pair [] none⟩]) ∧
      function = .returns [.str "gouri", .int 100] ∧
      lostResultState.future.Success = true ∧ lostResultState.future.Result = [] ∧
      run function (retrievalCall none 3) lostResultState
        = some (lostResultState, [⟨.Get, .pair [] none⟩]) :=
  ⟨by decide, rfl, rfl, rfl, by decide⟩

theorem WorkerPC.wroteResult_of_wroteSuccess {w : WorkerPC} (h : w.wroteSuccess = true) :
    w.wroteResult = true := by
  cases w <;> first | rfl | cases h

theorem returned_append {evs e1 : List Event} :
    Returned (evs ++ e1) ↔ Returned evs ∨ Returned e1 := by
  constructor
  · rintro ⟨e, he, h⟩
    rcases List.mem_append.1 he with h1 | h1
    · exact Or.inl ⟨e, h1, h⟩
    · exact Or.inr ⟨e, h1, h⟩
  · rintro (⟨e, he, h⟩ | ⟨e, he, h⟩)
    · exact ⟨e, List.mem_append.2 (Or.inl he), h⟩
    · exact ⟨e, List.mem_append.2 (Or.inr he), h⟩

theorem not_returned_bool (op : Op) (b : Bool) : ¬ Returned [⟨op, .bool b⟩] := by
  rintro ⟨e, he, r, err, h⟩
  rw [List.mem_singleton.1 he] at h
  cases h

theorem InvT.twmove {work : Work} {su ca : Bool} {re : List Value} {w w1 : WorkerPC}
    {c : CallerPC} {evs : List Event} (h : InvT work su re ca w c evs)
    (h1 : w1.wroteResult = true → w.wroteResult = true) : InvT work su re ca w1 c evs :=
  ⟨fun hw => h.res (h1 hw), h.notCancelled, h.plainPc, h.knows, h.evsOk, h.got⟩

theorem InvT.tmove {work : Work} {su ca : Bool} {re : List Value} {w : WorkerPC}
    {c c1 : CallerPC} {evs : List Event} (h : InvT work su re ca w c evs)
    (h1 : c1.plain = true) (h2 : c1.knowsSuccess = true → su = true) :
    InvT work su re ca w c1 evs :=
  ⟨h.res, h.notCancelled, h1, h2, h.evsOk, h.got⟩

theorem InvT.tret_bool {work : Work} {su ca : Bool} {re : List Value} {w : WorkerPC}
    {c : CallerPC} {evs : List Event} (h : InvT work su re ca w c evs) (op : Op) (b : Bool) :
    InvT work su re ca w .idle (evs ++ [⟨op, .bool b⟩]) := by
  refine ⟨h.res, h.notCancelled, rfl, fun hk => (by cases hk), ?_, ?_⟩
  · intro e he r err hr
    rcases List.mem_append.1 he with h1 | h1
    · exact h.evsOk e h1 r err hr
    · rw [List.mem_singleton.1 h1] at hr; cases hr
  · intro hg
    rcases returned_append.1 hg with h1 | h1
    · exact h.got h1
    · exact absurd h1 (not_returned_bool op b)

theorem InvT.tret_pair {work : Work} {su ca : Bool} {re : List Value} {w : WorkerPC}
    {c : CallerPC} {evs : List Event} (h : InvT work su re ca w c evs) (op : Op)
    (hsu : su = true) (hre : re = work.conv) :
    InvT work su re ca w .idle (evs ++ [⟨op, .pair re none⟩]) := by
  refine ⟨h.res, h.notCancelled, rfl, fun hk => (by cases hk), ?_, fun _ => ⟨hsu, hre⟩⟩
  intro e he r err hr
  rcases List.mem_append.1 he with h1 | h1
  · exact h.evsOk e h1 r err hr
  · rw [List.mem_singleton.1 h1] at hr
    cases hr
    exact ⟨hre, rfl⟩

theorem InvT.worker_kept {work : Work} {s s1 : State} {evs : List Event}
    (hI : Inv work s evs)
    (hT : InvT work s.future.Success s.future.Result s.future.Cancelled s.worker s.caller evs)
    (hs : workerStep work s = some s1) :
    InvT work s1.future.Success s1.future.Result s1.future.Cancelled s1.worker s1.caller evs := by
  have hW := hI.w
  unfold workerStep at hs
  split at hs
  all_goals (rename_i hw; rw [hw] at hW hT)
  all_goals (try split at hs)
  all_goals (try (simp only [Option.some.injEq, reduceCtorEq] at hs))
  all_goals (try subst hs)
  all_goals (try (exact hT.twmove (fun h => h)))
  · -- `case <-quit`: the caller would be inside `Cancel`
    rename_i m hc
    have h := hT.plainPc
    rw [hc] at h
    cases h
  · -- `future.Result = convertTOInterface`
    rename_i conv
    exact ⟨fun _ => hW.wconv conv rfl, hT.notCancelled, hT.plainPc, hT.knows, hT.evsOk,
      fun hg => ⟨(hT.got hg).1, hW.wconv conv rfl⟩⟩
  · -- `future.Success = true`
    exact ⟨hT.res, hT.notCancelled, hT.plainPc, fun _ => rfl, hT.evsOk,
      fun _ => ⟨rfl, hT.res rfl⟩⟩

theorem InvT.caller_kept {work : Work} {pick : Pick} {s s1 : State} {evs e1 : List Event}
    (hI : Inv work s evs)
    (hT : InvT work s.future.Success s.future.Result s.future.Cancelled s.worker s.caller evs)
    (hp : pick ≠ .timeout) (hs : callerStep pick s = some (s1, e1)) :
    InvT work s1.future.Success s1.future.Result s1.future.Cancelled s1.worker s1.caller
      (evs ++ e1) := by
  have hW := hI.w
  have hC := hI.c
  unfold callerStep at hs
  simp only at hs
  split at hs
  all_goals (rename_i hc; rw [hc] at hC hT)
  all_goals (try (cases hT.plainPc; done))
  all_goals (try (cases hC.noErrPath; done))
  all_goals (try split at hs)
  all_goals (try split at hs)
  all_goals (try split at hs)
  all_goals (try (simp only [goto, ret, Option.some.injEq, Prod.mk.injEq, reduceCtorEq] at hs))
  all_goals (try (obtain ⟨rfl, rfl⟩ := hs))
  all_goals (try simp only [List.append_nil])
  all_goals
    try first
    | exact hT.tret_bool _ _
    | exact hT.tret_pair _ (hT.knows rfl)
        (hT.res (WorkerPC.wroteResult_of_wroteSuccess (hC.sawSuccess rfl)))
    | exact hT.tret_pair _ (hT.knows rfl) (hT.res (hC.received rfl ▸ rfl))
    | (refine hT.tmove rfl ?_
       first | (intro h; cases h; done) | (intro _; exact hT.knows rfl) | (intro _; assumption))
    | (rename_i h; rw [hT.notCancelled] at h; cases h)
    | exact absurd rfl hp
  · -- receive from `ResultChannel`
    rename_i conv hw
    rw [hw] at hT
    exact ⟨fun _ => hT.res rfl, hT.notCancelled, rfl, fun h => (nomatch h), hT.evsOk, hT.got⟩
  · -- receive from `ErrorChannel`: impossible, the worker has not received from `quit`
    rename_i err hw
    rw [hw] at hC
    have h1 := hC.cancelled
    rw [hT.notCancelled] at h1
    cases h1
  · -- `f.Result = res`
    rename_i t res
    have hr : res = work.conv := hC.cres res rfl
    exact ⟨fun _ => hr, hT.notCancelled, rfl, fun h => (nomatch h), hT.evsOk,
      fun hg => ⟨(hT.got hg).1, hr⟩⟩
  · -- `f.Success = true`
    have hd := hC.received rfl
    rw [hd] at hT ⊢
    exact ⟨hT.res, hT.notCancelled, rfl, fun _ => rfl, hT.evsOk, fun _ => ⟨rfl, hT.res rfl⟩⟩

theorem InvT.step_kept {work : Work} {a : Action} {s s1 : State} {evs e1 : List Event}
    (hI : Inv work s evs)
    (hT : InvT work s.future.Success s.future.Result s.future.Cancelled s.worker s.caller evs)
    (ha : a.plain = true) (hs : step work a s = some (s1, e1)) :
    InvT work s1.future.Success s1.future.Result s1.future.Cancelled s1.worker s1.caller
      (evs ++ e1) := by
  unfold step at hs
  split at hs
  · cases hs
  · cases a with
    | invoke op =>
      have hs1 : invokeStep op s = some (s1, e1) := hs
      unfold invokeStep at hs1
      split at hs1
      · cases op <;> first
          | (cases ha; done)
          | (simp only [goto, Option.some.injEq, Prod.mk.injEq] at hs1
             obtain ⟨rfl, rfl⟩ := hs1
             simp only [List.append_nil]
             exact hT.tmove rfl (fun h => (nomatch h)))
      · cases hs1
    | caller pick =>
      have hp : pick ≠ .timeout := by
        intro h
        rw [h] at ha
        cases ha
      exact hT.caller_kept hI hp hs
    | worker =>
      simp only [Option.map_eq_some', Prod.mk.injEq] at hs
      obtain ⟨s2, h2, rfl, rfl⟩ := hs
      simpa using hT.worker_kept hI h2
    | tick =>
      simp only [Option.some.injEq, Prod.mk.injEq] at hs
      obtain ⟨rfl, rfl⟩ := hs
      simpa using hT

theorem InvT.run_kept {work : Work} {sched : List Action} {s s1 : State}
    {evs e1 : List Event} (hR : Reach work s evs)
    (hT : InvT work s.future.Success s.future.Result s.future.Cancelled s.worker s.caller evs)
    (ha : ∀ a ∈ sched, a.plain = true) (hr : run work sched s = some (s1, e1)) :
    InvT work s1.future.Success s1.future.Result s1.future.Cancelled s1.worker s1.caller
      (evs ++ e1) := by
  induction sched generalizing s evs e1 with
  | nil =>
    obtain ⟨rfl, rfl⟩ := run_nil_eq_some hr
    simpa using hT
  | cons a as ih =>
    obtain ⟨s2, e2, e3, h2, h3, rfl⟩ := run_cons_eq_some hr
    have k := hT.step_kept hR.inv (ha a (List.mem_cons_self a as)) h2
    have := ih (Reach.next a hR h2) k (fun b hb => ha b (List.mem_cons_of_mem a hb)) h3
    simpa [List.append_assoc] using this

/-- The result of the work reaches the caller when nothing interferes.  Take any execution
from `StartGo` of a work function that returns `vs`, in which `Cancel` is not called and
no `select` of `GetWithTimeout` commits to its timer.  Every `Get()` and
`GetWithTimeout(d)` that has returned returned exactly `(vs, nil)`; and once one has
returned, `f.Success` is true and `f.Result` is `vs`. -/
theorem get_returns_result_without_timeout (vs : List Value) (now : Nat) (sched : List Action)
    (s : State) (evs : List Event) (ha : ∀ a ∈ sched, a.plain = true)
    (h : run (.returns vs) sched (StartGo now) = some (s, evs)) :
    (∀ e ∈ evs, ∀ r err, e.ret = .pair r err → r = vs ∧ err = none) ∧
      (Returned evs → s.future.Success = true ∧ s.future.Result = vs) := by
  have h0 : InvT (.returns vs) (StartGo now).future.Success (StartGo now).future.Result
      (StartGo now).future.Cancelled (StartGo now).worker (StartGo now).caller [] :=
    ⟨fun h => (nomatch h), rfl, rfl, fun h => (nomatch h), fun _ h => (List.not_mem_nil _ h).elim,
      fun ⟨_, h, _⟩ => (List.not_mem_nil _ h).elim⟩
  have hT := h0.run_kept (Reach.start now) ha h
  simp only [List.nil_append] at hT
  have hv : (Work.returns vs).conv = vs := convertTOInterface_eq vs
  have h1 := hT.evsOk
  have h2 := hT.got
  rw [hv] at h1 h2
  exact ⟨h1, h2⟩

end future
